import Mathlib

/-!
# Verification of the saruta HTTP router core

This file embeds the core of the `saruta` router — the pattern compiler
(`pattern.go`), the validating trie and compacted radix tree with its matcher
(`radix.go`-style code), and the dispatch logic of `Router.ServeHTTP`
(`router.go`) — as executable Lean definitions, and proves or refutes the
frozen claims about them.

Modelling conventions:
* Go strings are byte strings; we model them as `List Nat` (`Str`), each
  element a byte value.  `bytes` converts an ASCII Lean string literal for
  concrete test inputs.
* Go maps (`staticChildren`, `handlers`) are modelled as association lists in
  first-insertion order; lookups are by key, so the representation order is
  irrelevant to the map semantics.  Where the Go code *iterates* over a map
  (radix construction), the model iterates in list order; claim C8 is about
  independence from that order.
* `http.Handler` values are opaque to the core (stored and returned, never
  inspected), so handlers are modelled as `Nat` identifiers.
* Fallible Go functions returning `(T, error)` or `(T, bool)` become
  `Except RouteErr T` / `Option T`.
* The `[256]uint16` static-edge index becomes a function `Nat → Nat`
  (`0` meaning "no edge", `i+1` for edge `i`, exactly as in the source).
  The `uint16` truncation is not modelled: a node of a built tree has at most
  one static edge per first byte, hence at most 256 edges, so `i+1 < 65536`.
-/

set_option maxHeartbeats 1600000
set_option maxRecDepth 8000

namespace Saruta

/-- Byte strings, the model of Go `string`. -/
abbrev Str := List Nat

/-- Convert an ASCII Lean string literal to its byte list, for concrete inputs. -/
def bytes (s : String) : Str := s.data.map Char.toNat

/-- Go slice expression `s[a:b]`. -/
def sub (s : Str) (a b : Nat) : Str := (s.take b).drop a

/-- Go `strings.Cut(s, sep)` for a single-byte separator: split at the first
occurrence of `c`, if any. -/
def cut (s : Str) (c : Nat) : Option (Str × Str) :=
  match s.findIdx? (· = c) with
  | none => none
  | some i => some (s.take i, s.drop (i + 1))

/-- Go `strings.Split(s, "/")`: split on every `'/'` byte (code 47), keeping
empty pieces. -/
def splitOnSlash : Str → List Str
  | [] => [[]]
  | c :: rest =>
    if c = 47 then [] :: splitOnSlash rest
    else
      match splitOnSlash rest with
      | s :: ss => (c :: s) :: ss
      | [] => [[c]]

/-- Source `splitPathSegments`: `/` has no segments; otherwise drop the leading
`'/'` and split on `'/'`. -/
def splitPathSegments (path : Str) : List Str :=
  if path = [47] then [] else splitOnSlash (path.drop 1)

/-- Source `longestCommonPrefix`: length of the longest common prefix of two
byte strings. -/
def longestCommonPrefix : Str → Str → Nat
  | x :: xs, y :: ys => if x = y then longestCommonPrefix xs ys + 1 else 0
  | _, _ => 0

/-- Go string comparison `a < b` (bytewise lexicographic). -/
def strLt : Str → Str → Bool
  | [], [] => false
  | [], _ :: _ => true
  | _ :: _, [] => false
  | a :: as, b :: bs => if a < b then true else if b < a then false else strLt as bs

theorem strLt_asymm : ∀ (a b : Str), strLt a b = true → strLt b a = false := by
  intro a
  induction a with
  | nil => intro b h; cases b <;> simp [strLt] at h ⊢
  | cons x xs ih =>
    intro b h
    cases b with
    | nil => simp [strLt] at h
    | cons y ys =>
      rw [strLt] at h ⊢
      by_cases hxy : x < y
      · rw [if_neg (by omega), if_pos hxy]
      · rw [if_neg hxy] at h
        by_cases hyx : y < x
        · rw [if_pos hyx] at h; exact absurd h (by simp)
        · rw [if_neg hyx] at h
          rw [if_neg hyx, if_neg hxy]
          exact ih ys h

theorem strLt_trans : ∀ (a b c : Str), strLt a b = true → strLt b c = true →
    strLt a c = true := by
  intro a
  induction a with
  | nil =>
    intro b c h1 h2
    cases b with
    | nil => simp [strLt] at h1
    | cons y ys =>
      cases c with
      | nil => simp [strLt] at h2
      | cons z zs => simp [strLt]
  | cons x xs ih =>
    intro b c h1 h2
    cases b with
    | nil => simp [strLt] at h1
    | cons y ys =>
      cases c with
      | nil => simp [strLt] at h2
      | cons z zs =>
        rw [strLt] at h1 h2 ⊢
        by_cases hxy : x < y
        · by_cases hyz : y < z
          · rw [if_pos (by omega)]
          · rw [if_neg hyz] at h2
            by_cases hzy : z < y
            · rw [if_pos hzy] at h2; exact absurd h2 (by simp)
            · have heq : y = z := by omega
              subst heq
              rw [if_pos hxy]
        · rw [if_neg hxy] at h1
          by_cases hyx : y < x
          · rw [if_pos hyx] at h1; exact absurd h1 (by simp)
          · have heq : x = y := by omega
            subst heq
            rw [if_neg hxy] at h1
            by_cases hxz : x < z
            · rw [if_pos hxz]
            · rw [if_neg hxz] at h2 ⊢
              by_cases hzx : z < x
              · rw [if_pos hzx] at h2; exact absurd h2 (by simp)
              · rw [if_neg hzx] at h2 ⊢
                exact ih ys zs h1 h2

theorem strLt_conn : ∀ (a b : Str), strLt a b = false → strLt b a = false →
    a = b := by
  intro a
  induction a with
  | nil =>
    intro b h1 _
    cases b with
    | nil => rfl
    | cons y ys => simp [strLt] at h1
  | cons x xs ih =>
    intro b h1 h2
    cases b with
    | nil => simp [strLt] at h2
    | cons y ys =>
      rw [strLt] at h1
      rw [strLt] at h2
      by_cases hxy : x < y
      · rw [if_pos hxy] at h1; exact absurd h1 (by simp)
      · by_cases hyx : y < x
        · rw [if_pos hyx] at h2; exact absurd h2 (by simp)
        · have heq : x = y := by omega
          subst heq
          rw [if_neg hxy, if_neg hxy] at h1
          rw [if_neg hxy, if_neg hxy] at h2
          rw [ih ys h1 h2]

/-- Ascending order underlying Go `sort.Strings`: `a ≤ b` iff not `b < a`. -/
def strLe (a b : Str) : Prop := strLt b a = false

instance : DecidableRel strLe := fun a b => instDecidableEqBool (strLt b a) false

instance : IsTotal Str strLe where
  total a b := by
    by_cases h : strLt a b = true
    · exact Or.inl (strLt_asymm a b h)
    · exact Or.inr (by simpa [strLe] using h)

instance : IsTrans Str strLe where
  trans a b c h1 h2 := by
    unfold strLe at h1 h2 ⊢
    by_cases hca : strLt c a = true
    · exfalso
      by_cases hbc : strLt b c = true
      · have := strLt_trans b c a hbc hca
        rw [this] at h1
        exact absurd h1 (by simp)
      · have heq : b = c := strLt_conn b c (by simpa using hbc) h2
        subst heq
        rw [hca] at h1
        exact absurd h1 (by simp)
    · simpa using hca

/-- Sort a list of strings ascending by byte-lexicographic order (model of Go
`sort.Strings`; on lists with pairwise-distinct elements every correct sort
agrees, so the choice of insertion sort is irrelevant there). -/
def sortStrings (l : List Str) : List Str := List.insertionSort strLe l

theorem sortStrings_sorted (l : List Str) : List.Sorted strLe (sortStrings l) :=
  List.sorted_insertionSort strLe l

theorem sortStrings_perm (l : List Str) : (sortStrings l).Perm l :=
  List.perm_insertionSort strLe l

/-- Go `strings.Join(l, sep)`. -/
def joinStr (sep : Str) (l : List Str) : Str := List.intercalate sep l

/-- Association-list lookup, the model of Go map indexing `m[k]`. -/
def lookupA {α : Type} : List (Str × α) → Str → Option α
  | [], _ => none
  | (k, v) :: rest, key => if k = key then some v else lookupA rest key

/-- Association-list update `m[k] = v`: replace the binding if the key is
present, otherwise append it. -/
def updateA {α : Type} : List (Str × α) → Str → α → List (Str × α)
  | [], key, v => [(key, v)]
  | (k, w) :: rest, key, v =>
    if k = key then (k, v) :: rest else (k, w) :: updateA rest key v

/-! ## Constraint matcher (`byteClassMatcher`) -/

/-- Source `byteClassMatcher`: an allow-set over byte values plus a minimum
length.  The `[256]bool` array is modelled as a function on byte values. -/
structure ByteClassMatcher where
  allow : Nat → Bool
  minLen : Nat

/-- Source `(*byteClassMatcher).Match`: length at least `minLen` and every
byte allowed. -/
def ByteClassMatcher.Match (m : ByteClassMatcher) (seg : Str) : Bool :=
  if seg.length < m.minLen then false else seg.all m.allow

/-- Source `newByteClassMatcher`: set `allow[c] = true` for every `c` in
`chars`. -/
def newByteClassMatcher (chars : List Nat) (minLen : Nat) : ByteClassMatcher :=
  { allow := chars.foldl (fun f c => Function.update f c true) (fun _ => false)
    minLen := minLen }

/-! ## Pattern compiler data model -/

/-- Source `segmentKind`. -/
inductive SegmentKind where
  | static
  | param
  | catchAll
deriving DecidableEq, Repr

/-- Source `templateParam`: one parameter span of a segment template.
The `matcher` field holds the compiled constraint (`nil` ⇒ `none`). -/
structure TemplateParam where
  name : Str
  expr : Str
  matcher : Option ByteClassMatcher

/-- Source `segmentTemplate`: alternating literals and parameter spans of one
raw segment (`literals.length = params.length + 1`). -/
structure SegmentTemplate where
  literals : List Str
  params : List TemplateParam

/-- Source `segment`.  Go's `prefix`/`suffix` fields are named `pre`/`suf`
here.  Zero values of the Go struct become `[]`/`none`. -/
structure Segment where
  kind : SegmentKind
  literal : Str := []
  name : Str := []
  expr : Str := []
  pre : Str := []
  suf : Str := []
  matcher : Option ByteClassMatcher := none
  tmpl : Option SegmentTemplate := none

/-- Source `compiledPattern`. -/
structure CompiledPattern where
  segments : List Segment

/-- Structured model of the `error` values produced by the core (each
constructor corresponds to one `fmt.Errorf` site; wrapping with `%w` becomes
a payload). -/
inductive RouteErr where
  | emptyPattern
  | noLeadingSlash
  | invalidPattern (pattern : Str) (e : RouteErr)
  | catchAllNotLast (pattern : Str)
  | invalidSegment (raw : Str)
  | emptyParamName
  | catchAllAffix
  | adjacentParams
  | regexCatchAll
  | emptyParamExpr
  | invalidMatcher (name : Str) (e : RouteErr)
  | unsupportedExpr (expr : Str)
  | untermClass
  | unsupportedQuant (c : Nat)
  | emptyClass
  | invalidRange (a b : Nat)
  | unexpectedEndClass
  | danglingEscape
  | slashDInClass
  | invalidParamName (name : Str)
  | conflictParam (method pattern existing : Str)
  | conflictCatchAll (method pattern existing : Str)
  | dupRoute (method pattern : Str)
  | invalidMountPre (pre : Str)
  | dupMount (pre : Str)
  | emptyMethod
deriving DecidableEq, Repr

/-! ## Pattern compiler functions -/

/-- Source `readClassAtom`: read one (possibly escaped) byte of a character
class at index `i`, returning the byte and the next index. -/
def readClassAtom (s : Str) (i : Nat) : Except RouteErr (Nat × Nat) :=
  if i ≥ s.length then .error .unexpectedEndClass
  else if s.getD i 0 ≠ 92 then .ok (s.getD i 0, i + 1)
  else if i + 1 ≥ s.length then .error .danglingEscape
  else if s.getD (i + 1) 0 = 100 then .error .slashDInClass
  else .ok (s.getD (i + 1) 0, i + 2)

theorem readClassAtom_lt (s : Str) (i : Nat) (c n : Nat)
    (h : readClassAtom s i = .ok (c, n)) : i < n := by
  unfold readClassAtom at h
  split at h
  · exact absurd h (by simp)
  · split at h
    · simp at h; omega
    · split at h
      · exact absurd h (by simp)
      · split at h
        · exact absurd h (by simp)
        · simp at h; omega

/-- Loop body of source `parseByteClass`. -/
def parseByteClassLoop (class_ : Str) (i : Nat) (out : List Nat) :
    Except RouteErr (List Nat) :=
  if hi : i < class_.length then
    match h : readClassAtom class_ i with
    | .error e => .error e
    | .ok (cur, next) =>
      if next + 1 < class_.length ∧ class_.getD next 0 = 45 then
        match h2 : readClassAtom class_ (next + 1) with
        | .error e => .error e
        | .ok (endCh, endNext) =>
          if cur > endCh then .error (.invalidRange cur endCh)
          else parseByteClassLoop class_ endNext
            (out ++ List.range' cur (endCh + 1 - cur))
      else parseByteClassLoop class_ next (out ++ [cur])
  else .ok out
termination_by class_.length - i
decreasing_by
  · have := readClassAtom_lt class_ i cur next h
    have := readClassAtom_lt class_ (next + 1) endCh endNext h2
    omega
  · have := readClassAtom_lt class_ i cur next h
    omega

/-- Source `parseByteClass`: expand a character class body (with `-` ranges
and `\` escapes) into its list of allowed bytes. -/
def parseByteClass (class_ : Str) : Except RouteErr (List Nat) :=
  if class_ = [] then .error .emptyClass
  else parseByteClassLoop class_ 0 []

/-- Source `compileSegmentExpr`: the restricted constraint grammar
(`\d`, `\d+`, `\d*`, `[class]`, `[class]+`, `[class]*`). -/
def compileSegmentExpr (expr : Str) : Except RouteErr ByteClassMatcher :=
  if expr = bytes "\\d" then .ok (newByteClassMatcher (bytes "0123456789") 1)
  else if expr = bytes "\\d+" then .ok (newByteClassMatcher (bytes "0123456789") 1)
  else if expr = bytes "\\d*" then .ok (newByteClassMatcher (bytes "0123456789") 0)
  else if expr.length < 2 ∨ expr.getD 0 0 ≠ 91 then .error (.unsupportedExpr expr)
  else
    match expr.findIdx? (· = 93) with
    | none => .error .untermClass
    | some endIdx =>
      if endIdx ≠ expr.length - 1 ∧ endIdx ≠ expr.length - 2 then
        .error (.unsupportedExpr expr)
      else
        let minLenE : Except RouteErr Nat :=
          if endIdx = expr.length - 2 then
            if expr.getD (expr.length - 1) 0 = 43 then .ok 1
            else if expr.getD (expr.length - 1) 0 = 42 then .ok 0
            else .error (.unsupportedQuant (expr.getD (expr.length - 1) 0))
          else .ok 1
        match minLenE with
        | .error e => .error e
        | .ok minLen =>
          match parseByteClass (sub expr 1 endIdx) with
          | .error e => .error e
          | .ok classBytes => .ok (newByteClassMatcher classBytes minLen)

/-- Source `validateParamName`: non-empty, letters/digits/underscore, no
leading digit. -/
def validateParamName (name : Str) : Except RouteErr Unit :=
  if name = [] then .error .emptyParamName
  else if name.enum.all (fun p =>
      (97 ≤ p.2 ∧ p.2 ≤ 122) ∨ (65 ≤ p.2 ∧ p.2 ≤ 90) ∨ p.2 = 95 ∨
      (p.1 > 0 ∧ 48 ≤ p.2 ∧ p.2 ≤ 57)) then .ok ()
  else .error (.invalidParamName name)

/-- Source `parseSegmentParam`: parse a `name` or `name:expr` parameter body. -/
def parseSegmentParam (body : Str) : Except RouteErr TemplateParam :=
  match cut body 58 with
  | none =>
    match validateParamName body with
    | .error e => .error e
    | .ok _ => .ok { name := body, expr := [], matcher := none }
  | some (before, after) =>
    if after = [] then .error .emptyParamExpr
    else
      match compileSegmentExpr after with
      | .error e => .error (.invalidMatcher before e)
      | .ok m =>
        match validateParamName before with
        | .error e => .error e
        | .ok _ => .ok { name := before, expr := after, matcher := some m }

/-- Source `parseParamBody`: build a catch-all (or single-parameter) segment
from a parameter body with surrounding literals `pre`/`suf`. -/
def parseParamBody (body pre suf : Str) : Except RouteErr Segment :=
  if (bytes "...").isSuffixOf body then
    if pre ≠ [] ∨ suf ≠ [] then .error .catchAllAffix
    else if body.contains 58 then .error .regexCatchAll
    else
      let name := body.take (body.length - 3)
      match validateParamName name with
      | .error e => .error e
      | .ok _ => .ok { kind := .catchAll, name := name }
  else
    match parseSegmentParam body with
    | .error e => .error e
    | .ok p =>
      .ok { kind := .param, name := p.name, expr := p.expr, pre := pre,
            suf := suf, matcher := p.matcher,
            tmpl := some { literals := [pre, suf], params := [p] } }

/-- Loop of source `parseSegment`: scan `raw` from index `i`, `last` marking
the start of the pending literal, accumulating `literals` and `params`. -/
def parseSegmentLoop (raw : Str) (i last : Nat) (literals : List Str)
    (params : List TemplateParam) : Except RouteErr Segment :=
  if hi : i < raw.length then
    if raw.getD i 0 = 125 then .error (.invalidSegment raw)
    else if raw.getD i 0 = 123 then
      match hj : (raw.drop (i + 1)).findIdx? (· = 125) with
      | none => .error (.invalidSegment raw)
      | some j0 =>
        let j := i + 1 + j0
        if (sub raw (i + 1) j).contains 123 then .error (.invalidSegment raw)
        else
          let literals' := literals ++ [sub raw last i]
          let body := sub raw (i + 1) j
          if body = [] then .error .emptyParamName
          else if (bytes "...").isSuffixOf body then
            if params.length > 0 ∨ i ≠ 0 ∨ j ≠ raw.length - 1 then
              .error .catchAllAffix
            else parseParamBody body [] []
          else
            match parseSegmentParam body with
            | .error e => .error e
            | .ok p => parseSegmentLoop raw (j + 1) (j + 1) literals' (params ++ [p])
    else parseSegmentLoop raw (i + 1) last literals params
  else
    let literals' := literals ++ [sub raw last raw.length]
    if params.length = 0 then .error (.invalidSegment raw)
    else if ((literals'.drop 1).dropLast).any (· = []) then .error .adjacentParams
    else
      let tmpl : SegmentTemplate := { literals := literals', params := params }
      if params.length = 1 then
        .ok { kind := .param
              name := (params.headD ⟨[], [], none⟩).name
              expr := (params.headD ⟨[], [], none⟩).expr
              matcher := (params.headD ⟨[], [], none⟩).matcher
              pre := literals'.getD 0 []
              suf := literals'.getD 1 []
              tmpl := some tmpl }
      else .ok { kind := .param, tmpl := some tmpl }
termination_by raw.length - i
decreasing_by
  · omega
  · omega

/-- Source `parseSegment`: classify one raw path segment. -/
def parseSegment (raw : Str) : Except RouteErr Segment :=
  if raw = [] then .ok { kind := .static, literal := [] }
  else if !raw.contains 123 && !raw.contains 125 then
    .ok { kind := .static, literal := raw }
  else parseSegmentLoop raw 0 0 [] []

/-- Loop of source `compilePattern`: parse each raw segment, rejecting a
catch-all anywhere but the last position. -/
def compileSegList (pattern : Str) : List Str → Except RouteErr (List Segment)
  | [] => .ok []
  | raw :: rest =>
    match parseSegment raw with
    | .error e => .error (.invalidPattern pattern e)
    | .ok seg =>
      if seg.kind = .catchAll ∧ rest ≠ [] then .error (.catchAllNotLast pattern)
      else
        match compileSegList pattern rest with
        | .error e => .error e
        | .ok segs => .ok (seg :: segs)

/-- Source `compilePattern`. -/
def compilePattern (pattern : Str) : Except RouteErr CompiledPattern :=
  if pattern = [] then .error .emptyPattern
  else if pattern.headD 0 ≠ 47 then .error .noLeadingSlash
  else if pattern = [47] then .ok { segments := [] }
  else
    match compileSegList pattern (splitPathSegments pattern) with
    | .error e => .error e
    | .ok segs => .ok { segments := segs }

/-! ## Validating trie (`node`, `paramEdge`) -/

mutual
/-- Source `node`: the mutable build-time trie node.  `staticChildren` is an
association list in first-insertion order (Go: `map[string]*node`); `handlers`
maps method names to handler ids (`nil` map ⇔ `[]`). -/
inductive Node where
  | mk (staticChildren : List (Str × Node)) (paramChild : Option ParamEdge)
      (catchAllChild : Option ParamEdge) (handlers : List (Str × Nat))
      (mount : Option Nat)
/-- Source `paramEdge` (Go fields `prefix`/`suffix` are `pre`/`suf`). -/
inductive ParamEdge where
  | mk (name expr pre suf : Str) (matcher : Option ByteClassMatcher) (next : Node)
end

def Node.staticChildren : Node → List (Str × Node)
  | .mk sc _ _ _ _ => sc

def Node.paramChild : Node → Option ParamEdge
  | .mk _ p _ _ _ => p

def Node.catchAllChild : Node → Option ParamEdge
  | .mk _ _ c _ _ => c

def Node.handlers : Node → List (Str × Nat)
  | .mk _ _ _ h _ => h

def Node.mount : Node → Option Nat
  | .mk _ _ _ _ m => m

def ParamEdge.name : ParamEdge → Str
  | .mk n _ _ _ _ _ => n

def ParamEdge.expr : ParamEdge → Str
  | .mk _ e _ _ _ _ => e

def ParamEdge.pre : ParamEdge → Str
  | .mk _ _ p _ _ _ => p

def ParamEdge.suf : ParamEdge → Str
  | .mk _ _ _ s _ _ => s

def ParamEdge.matcher : ParamEdge → Option ByteClassMatcher
  | .mk _ _ _ _ m _ => m

def ParamEdge.next : ParamEdge → Node
  | .mk _ _ _ _ _ n => n

/-- Source `newNode`. -/
def newNode : Node := .mk [] none none [] none

/-- Source `(*node).insertRoute`, the per-segment descent written as structural
recursion over the compiled segment list.  The Go function mutates the trie in
place and returns an error; here the updated trie is returned in `Except`.  On
the error paths Go leaves freshly created intermediate nodes behind, but the
trie is discarded by `Compile` in that case, so the functional model (which
returns no trie on error) is observationally equivalent. -/
def Node.insertRoute (n : Node) (method pattern : Str) (segs : List Segment)
    (h : Nat) : Except RouteErr Node :=
  match n, segs with
  | .mk sc p c hs m, [] =>
    if (lookupA hs method).isSome then .error (.dupRoute method pattern)
    else .ok (.mk sc p c (hs ++ [(method, h)]) m)
  | .mk sc p c hs m, seg :: rest =>
    match seg.kind with
    | .static =>
      let child := (lookupA sc seg.literal).getD newNode
      match child.insertRoute method pattern rest h with
      | .error e => .error e
      | .ok child' => .ok (.mk (updateA sc seg.literal child') p c hs m)
    | .param =>
      match p with
      | none =>
        match newNode.insertRoute method pattern rest h with
        | .error e => .error e
        | .ok next' =>
          .ok (.mk sc (some (.mk seg.name seg.expr seg.pre seg.suf seg.matcher next')) c hs m)
      | some pe =>
        if pe.name ≠ seg.name ∨ pe.expr ≠ seg.expr ∨ pe.pre ≠ seg.pre ∨
            pe.suf ≠ seg.suf then
          .error (.conflictParam method pattern pe.name)
        else
          match pe.next.insertRoute method pattern rest h with
          | .error e => .error e
          | .ok next' =>
            .ok (.mk sc (some (.mk pe.name pe.expr pe.pre pe.suf pe.matcher next')) c hs m)
    | .catchAll =>
      match c with
      | none =>
        match newNode.insertRoute method pattern rest h with
        | .error e => .error e
        | .ok next' =>
          .ok (.mk sc p (some (.mk seg.name seg.expr [] [] seg.matcher next')) hs m)
      | some ce =>
        if ce.name ≠ seg.name then
          .error (.conflictCatchAll method pattern ce.name)
        else
          match ce.next.insertRoute method pattern rest h with
          | .error e => .error e
          | .ok next' =>
            .ok (.mk sc p (some (.mk ce.name ce.expr ce.pre ce.suf ce.matcher next')) hs m)

/-- Source `(*node).insertMount`: descend static segments only, then store the
mount handler, rejecting duplicates. -/
def Node.insertMount (n : Node) (pre : Str) (segs : List Segment) (h : Nat) :
    Except RouteErr Node :=
  match n, segs with
  | .mk sc p c hs m, [] =>
    if m.isSome then .error (.dupMount pre)
    else .ok (.mk sc p c hs (some h))
  | .mk sc p c hs m, seg :: rest =>
    if seg.kind ≠ .static then .error (.invalidMountPre pre)
    else
      let child := (lookupA sc seg.literal).getD newNode
      match child.insertMount pre rest h with
      | .error e => .error e
      | .ok child' => .ok (.mk (updateA sc seg.literal child') p c hs m)

/-! ## Radix tree types -/

mutual
/-- Source `radixNode`: the immutable serve-time node.  `staticEdges` is the
edge list (label, target); `staticEdgeIndex` maps a first byte to
edge-index-plus-one (`0` = none), exactly as the `[256]uint16` array. -/
inductive RadixNode where
  | mk (staticEdges : List (Str × RadixNode)) (staticEdgeIndex : Nat → Nat)
      (paramChild : Option RadixParamEdge) (catchAllChild : Option RadixParamEdge)
      (handlers : List (Str × Nat)) (mount : Option Nat)
/-- Source `radixParamEdge`. -/
inductive RadixParamEdge where
  | mk (name pre suf : Str) (matcher : Option ByteClassMatcher) (next : RadixNode)
end

def RadixNode.staticEdges : RadixNode → List (Str × RadixNode)
  | .mk se _ _ _ _ _ => se

def RadixNode.staticEdgeIndex : RadixNode → Nat → Nat
  | .mk _ idx _ _ _ _ => idx

def RadixNode.paramChild : RadixNode → Option RadixParamEdge
  | .mk _ _ p _ _ _ => p

def RadixNode.catchAllChild : RadixNode → Option RadixParamEdge
  | .mk _ _ _ c _ _ => c

def RadixNode.handlers : RadixNode → List (Str × Nat)
  | .mk _ _ _ _ h _ => h

def RadixNode.mount : RadixNode → Option Nat
  | .mk _ _ _ _ _ m => m

def RadixParamEdge.name : RadixParamEdge → Str
  | .mk n _ _ _ _ => n

def RadixParamEdge.pre : RadixParamEdge → Str
  | .mk _ p _ _ _ => p

def RadixParamEdge.suf : RadixParamEdge → Str
  | .mk _ _ s _ _ => s

def RadixParamEdge.matcher : RadixParamEdge → Option ByteClassMatcher
  | .mk _ _ _ m _ => m

def RadixParamEdge.next : RadixParamEdge → RadixNode
  | .mk _ _ _ _ n => n

/-- The zero `radixNode` (`&radixNode{}`). -/
def emptyRadix : RadixNode := .mk [] (fun _ => 0) none none [] none

/-! ## Matching helpers -/

/-- Source `storeParam`: append a capture if fewer than 8 are stored; report
whether it was stored.  The Go `[8]pathParam` array plus count is modelled as
the list of stored captures (its length is the count). -/
def storeParam (params : List (Str × Str)) (p : Str × Str) :
    List (Str × Str) × Bool :=
  if params.length ≥ 8 then (params, false) else (params ++ [p], true)

/-- Source `matchParamSegment`: length, prefix, suffix, then constraint
matcher applied to the inner value. -/
def matchParamSegment (seg pre suf : Str) (matcher : Option ByteClassMatcher) :
    Option Str :=
  if seg.length < pre.length + suf.length then none
  else if pre ≠ [] ∧ ¬ pre.isPrefixOf seg then none
  else if suf ≠ [] ∧ ¬ suf.isSuffixOf seg then none
  else
    let value := sub seg pre.length (seg.length - suf.length)
    match matcher with
    | none => some value
    | some m => if m.Match value then some value else none

/-- Source `allowHeaderValue`: the map's keys, sorted ascending, joined with
`", "`. -/
def allowHeaderValue (handlers : List (Str × Nat)) : Str :=
  if handlers.length = 0 then []
  else joinStr (bytes ", ") (sortStrings (handlers.map Prod.fst))

/-- Source `nextSegmentAt`: the `/`-delimited segment starting at `pos`
(requires `path[pos] = '/'`), and the position just after it. -/
def nextSegmentAt (path : Str) (pos : Nat) : Option (Str × Nat) :=
  if pos ≥ path.length ∨ path.getD pos 0 ≠ 47 then none
  else
    match (path.drop (pos + 1)).findIdx? (· = 47) with
    | some k => some (sub path (pos + 1) (pos + 1 + k), pos + 1 + k)
    | none => some (path.drop (pos + 1), path.length)

/-- Source `catchAllAt`: the remainder after the required leading `'/'`. -/
def catchAllAt (path : Str) (pos : Nat) : Option Str :=
  if pos ≥ path.length ∨ path.getD pos 0 ≠ 47 then none
  else some (path.drop (pos + 1))

/-! ## Size measures (for termination only; not part of the source) -/

mutual
def sizeN : Node → Nat
  | .mk sc p c _ _ => 1 + sizeNChildren sc + sizeNPE p + sizeNPE c
def sizeNChildren : List (Str × Node) → Nat
  | [] => 0
  | (_, n) :: rest => 1 + sizeN n + sizeNChildren rest
def sizeNPE : Option ParamEdge → Nat
  | none => 0
  | some (.mk _ _ _ _ _ nx) => 1 + sizeN nx
end

mutual
def sizeR : RadixNode → Nat
  | .mk se _ p c _ _ => 1 + sizeREdges se + sizeRPE p + sizeRPE c
def sizeREdges : List (Str × RadixNode) → Nat
  | [] => 0
  | (_, n) :: rest => 1 + sizeR n + sizeREdges rest
def sizeRPE : Option RadixParamEdge → Nat
  | none => 0
  | some (.mk _ _ _ _ nx) => 1 + sizeR nx
end

theorem sizeN_pos (n : Node) : 1 ≤ sizeN n := by
  cases n with
  | mk sc p c hs m => rw [sizeN]; omega

theorem sizeR_pos (n : RadixNode) : 1 ≤ sizeR n := by
  cases n with
  | mk se idx p c hs m => rw [sizeR]; omega

theorem sizeR_lt_of_mem_edges {l : Str} {t : RadixNode}
    {se : List (Str × RadixNode)} (h : (l, t) ∈ se) : sizeR t < sizeREdges se := by
  induction se with
  | nil => cases h
  | cons e rest ih =>
    rcases e with ⟨l0, t0⟩
    rw [sizeREdges]
    rcases List.mem_cons.mp h with h1 | h2
    · cases h1; omega
    · have := ih h2; omega

theorem lcp_le_left (a b : Str) : longestCommonPrefix a b ≤ a.length := by
  induction a generalizing b with
  | nil => rw [longestCommonPrefix.eq_def]; cases b <;> simp
  | cons x xs ih =>
    cases b with
    | nil => rw [longestCommonPrefix.eq_def]; simp
    | cons y ys =>
      rw [longestCommonPrefix]
      split
      · have := ih ys; simpa using Nat.succ_le_succ this
      · simp

theorem lcp_le_right (a b : Str) : longestCommonPrefix a b ≤ b.length := by
  induction a generalizing b with
  | nil => rw [longestCommonPrefix.eq_def]; cases b <;> simp
  | cons x xs ih =>
    cases b with
    | nil => rw [longestCommonPrefix.eq_def]; simp
    | cons y ys =>
      rw [longestCommonPrefix]
      split
      · have := ih ys; simpa using Nat.succ_le_succ this
      · simp

/-! ## Radix construction (`compressStaticChain`, `insertRadixStaticEdge`,
`mergeRadixSubtree`, `buildRadixNode`, `finalizeRadix`, `buildRadix`) -/

/-- Loop of source `compressStaticChain`: extend the label while the current
node has no handlers, no mount, no parameter/catch-all edge and exactly one
static child.  (The Go `cur == nil` guard is unreachable: children are never
nil.) -/
def compressStaticChainLoop (label : Str) (cur : Node) : Str × Node :=
  if cur.handlers.length ≠ 0 ∨ cur.mount.isSome ∨ cur.paramChild.isSome ∨
      cur.catchAllChild.isSome ∨ cur.staticChildren.length ≠ 1 then (label, cur)
  else
    match h : cur.staticChildren with
    | (nextSeg, nextNode) :: _ => compressStaticChainLoop (label ++ 47 :: nextSeg) nextNode
    | [] => (label, cur)
termination_by sizeN cur
decreasing_by
  cases cur with
  | mk sc p c hs m =>
    simp only [Node.staticChildren] at h
    subst h
    rw [sizeN, sizeNChildren]
    omega

/-- Source `compressStaticChain`. -/
def compressStaticChain (firstSeg : Str) (child : Node) : Str × Node :=
  compressStaticChainLoop (47 :: firstSeg) child

theorem compressStaticChainLoop_size :
    ∀ (k : Nat) (label : Str) (cur : Node), sizeN cur ≤ k →
      sizeN (compressStaticChainLoop label cur).2 ≤ sizeN cur := by
  intro k
  induction k with
  | zero => intro label cur h; have := sizeN_pos cur; omega
  | succ k ih =>
    intro label cur hk
    rw [compressStaticChainLoop]
    split
    · simp
    · split
      · next nextSeg nextNode tail h =>
        have hlt : sizeN nextNode < sizeN cur := by
          cases cur with
          | mk sc p c hs m =>
            simp only [Node.staticChildren] at h
            subst h
            rw [sizeN, sizeNChildren]
            omega
        have := ih (label ++ 47 :: nextSeg) nextNode (by omega)
        omega
      · simp

theorem compressStaticChain_size (firstSeg : Str) (child : Node) :
    sizeN (compressStaticChain firstSeg child).2 ≤ sizeN child :=
  compressStaticChainLoop_size (sizeN child) _ child le_rfl

mutual
/-- Source `insertRadixStaticEdge` (in-place mutation of `n.staticEdges`
becomes a rebuilt node). -/
def insertRadixStaticEdge (n : RadixNode) (label : Str) (child : RadixNode) :
    RadixNode :=
  match n with
  | .mk se idx p c h m => .mk (insertRadixEdges se label child) idx p c h m
termination_by (2 * sizeR child, 2 * label.length + 1, 0)
/-- The edge-list scan of source `insertRadixStaticEdge`: `continue` on
`common = 0`, otherwise merge, descend, or split at the first edge sharing a
prefix; append a fresh edge if none does. -/
def insertRadixEdges : List (Str × RadixNode) → Str → RadixNode →
    List (Str × RadixNode)
  | [], label, child => [(label, child)]
  | (l0, t0) :: rest, label, child =>
    let common := longestCommonPrefix l0 label
    have hlab : longestCommonPrefix l0 label ≤ label.length := lcp_le_right l0 label
    if hc : common = 0 then (l0, t0) :: insertRadixEdges rest label child
    else if hb : common = l0.length ∧ common = label.length then
      (l0, mergeRadixSubtree t0 child) :: rest
    else if hd : common = l0.length then
      (l0, insertRadixStaticEdge t0 (label.drop common) child) :: rest
    else
      let split : RadixNode := .mk [(l0.drop common, t0)] (fun _ => 0) none none [] none
      if he : label.drop common = [] then
        (l0.take common, mergeRadixSubtree split child) :: rest
      else
        (l0.take common, insertRadixStaticEdge split (label.drop common) child) :: rest
termination_by se label child => (2 * sizeR child, 2 * label.length, se.length)
/-- Source `mergeRadixSubtree`: node content merges first-writer-wins, then
the source's edges are re-inserted.  (The Go `nil` guards are unreachable
here: built nodes are never nil.) -/
def mergeRadixSubtree (dst src : RadixNode) : RadixNode :=
  match dst, src with
  | .mk dse didx dp dc dh dm, .mk sse sidx sp sc sh sm =>
    have hsz : 2 * sizeREdges sse + 1 < 2 * sizeR (.mk sse sidx sp sc sh sm) := by
      rw [sizeR]; omega
    let dh' := if dh.length = 0 then sh else dh
    let dm' := if dm.isNone then sm else dm
    let dp' := if dp.isNone then sp else dp
    let dc' := if dc.isNone then sc else dc
    mergeRadixEdges (.mk dse didx dp' dc' dh' dm') sse
termination_by (2 * sizeR src, 1, 0)
/-- The edge loop of source `mergeRadixSubtree`. -/
def mergeRadixEdges (dst : RadixNode) : List (Str × RadixNode) → RadixNode
  | [] => dst
  | (l0, t0) :: rest =>
    have hsz : 2 * sizeR t0 < 2 * sizeREdges ((l0, t0) :: rest) + 1 := by
      rw [sizeREdges]; omega
    have hsz2 : 2 * sizeREdges rest + 1 < 2 * sizeREdges ((l0, t0) :: rest) + 1 := by
      rw [sizeREdges]; omega
    mergeRadixEdges (insertRadixStaticEdge dst l0 t0) rest
termination_by se => (2 * sizeREdges se + 1, 0, 0)
end

mutual
/-- Source `buildRadixNode`: copy content, build parameter/catch-all edges
recursively, then insert one compressed edge per static child (in the model,
in the association-list's order; Go iterates the map in unspecified order —
see claim C8). -/
def buildRadixNode (src : Node) : RadixNode :=
  match src with
  | .mk sc p c hs m =>
    have h1 : sizeNPE p < sizeN (.mk sc p c hs m) := by rw [sizeN]; omega
    have h2 : sizeNPE c < sizeN (.mk sc p c hs m) := by rw [sizeN]; omega
    have h3 : sizeNChildren sc < sizeN (.mk sc p c hs m) := by rw [sizeN]; omega
    buildRadixChildren (.mk [] (fun _ => 0) (buildRadixPE p) (buildRadixCE c) hs m) sc
termination_by sizeN src
/-- The `src.paramChild` copy in source `buildRadixNode`. -/
def buildRadixPE : Option ParamEdge → Option RadixParamEdge
  | none => none
  | some (.mk nm _ pr sf mt nx) =>
    have h : sizeN nx < sizeNPE (some (.mk nm [] pr sf mt nx)) := by
      rw [sizeNPE]; omega
    some (.mk nm pr sf mt (buildRadixNode nx))
termination_by o => sizeNPE o
/-- The `src.catchAllChild` copy in source `buildRadixNode` (name and matcher
only; a catch-all edge has no prefix/suffix). -/
def buildRadixCE : Option ParamEdge → Option RadixParamEdge
  | none => none
  | some (.mk nm _ pr sf mt nx) =>
    have h : sizeN nx < sizeNPE (some (.mk nm [] pr sf mt nx)) := by
      rw [sizeNPE]; omega
    some (.mk nm [] [] mt (buildRadixNode nx))
termination_by o => sizeNPE o
/-- The static-children loop of source `buildRadixNode`. -/
def buildRadixChildren (dst : RadixNode) : List (Str × Node) → RadixNode
  | [] => dst
  | (seg, child) :: rest =>
    have h1 : sizeN (compressStaticChain seg child).2 ≤ sizeN child :=
      compressStaticChain_size seg child
    have h2 : sizeN child < sizeNChildren ((seg, child) :: rest) := by
      rw [sizeNChildren]; omega
    have h3 : sizeNChildren rest < sizeNChildren ((seg, child) :: rest) := by
      rw [sizeNChildren]; omega
    buildRadixChildren
      (insertRadixStaticEdge dst (compressStaticChain seg child).1
        (buildRadixNode (compressStaticChain seg child).2)) rest
termination_by sc => sizeNChildren sc
end

/-- Insertion into a label-sorted edge list (helper for `sortEdges`). -/
def insertEdgeSorted (x : Str × RadixNode) :
    List (Str × RadixNode) → List (Str × RadixNode)
  | [] => [x]
  | y :: ys => if strLt y.1 x.1 then y :: insertEdgeSorted x ys else x :: y :: ys

/-- Model of the `sort.Slice` call in source `finalizeRadix`: sort edges
ascending by label.  (`sort.Slice` is unstable, but edges of a built node have
pairwise distinct labels, where every correct sort agrees.) -/
def sortEdges (l : List (Str × RadixNode)) : List (Str × RadixNode) :=
  l.foldr insertEdgeSorted []

theorem sizeREdges_insertEdgeSorted (x : Str × RadixNode)
    (l : List (Str × RadixNode)) :
    sizeREdges (insertEdgeSorted x l) = 1 + sizeR x.2 + sizeREdges l := by
  induction l with
  | nil => rcases x with ⟨a, b⟩; simp [insertEdgeSorted, sizeREdges]
  | cons y ys ih =>
    rcases x with ⟨a, b⟩; rcases y with ⟨c, d⟩
    rw [insertEdgeSorted]
    split
    · simp only [sizeREdges, ih]
      try omega
    · simp only [sizeREdges]
      try omega

theorem sizeREdges_sortEdges (l : List (Str × RadixNode)) :
    sizeREdges (sortEdges l) = sizeREdges l := by
  induction l with
  | nil => simp [sortEdges]
  | cons x xs ih =>
    rw [sortEdges, List.foldr_cons, sizeREdges_insertEdgeSorted]
    rw [sortEdges] at ih
    rw [ih, sizeREdges]
    try omega

/-- The byte→edge index built by source `finalizeRadix`:
`index[label[0]] = i + 1` for each edge with a non-empty label. -/
def buildEdgeIdx (edges : List (Str × RadixNode)) : Nat → Nat :=
  edges.enum.foldl
    (fun f p => if p.2.1 ≠ [] then Function.update f (p.2.1.headD 0) (p.1 + 1) else f)
    (fun _ => 0)

mutual
/-- Source `finalizeRadix`: sort static edges (only when more than one),
populate the first-byte index, and recurse into all children. -/
def finalizeRadix (n : RadixNode) : RadixNode :=
  match n with
  | .mk se idx p c h m =>
    have h1 : sizeREdges (if se.length > 1 then sortEdges se else se) <
        sizeR (.mk se idx p c h m) := by
      rw [sizeR]
      split
      · rw [sizeREdges_sortEdges]; omega
      · omega
    have h2 : sizeRPE p < sizeR (.mk se idx p c h m) := by rw [sizeR]; omega
    have h3 : sizeRPE c < sizeR (.mk se idx p c h m) := by rw [sizeR]; omega
    let fin := finalizeEdges (if se.length > 1 then sortEdges se else se)
    .mk fin (buildEdgeIdx fin) (finalizeRPE p) (finalizeRPE c) h m
termination_by sizeR n
/-- Edge recursion of source `finalizeRadix`. -/
def finalizeEdges : List (Str × RadixNode) → List (Str × RadixNode)
  | [] => []
  | (l, t) :: rest =>
    have h1 : sizeR t < sizeREdges ((l, t) :: rest) := by rw [sizeREdges]; omega
    have h2 : sizeREdges rest < sizeREdges ((l, t) :: rest) := by
      rw [sizeREdges]; omega
    (l, finalizeRadix t) :: finalizeEdges rest
termination_by se => sizeREdges se
/-- Parameter/catch-all recursion of source `finalizeRadix`. -/
def finalizeRPE : Option RadixParamEdge → Option RadixParamEdge
  | none => none
  | some (.mk nm pr sf mt nx) =>
    have h : sizeR nx < sizeRPE (some (.mk nm pr sf mt nx)) := by
      rw [sizeRPE]; omega
    some (.mk nm pr sf mt (finalizeRadix nx))
termination_by o => sizeRPE o
end

/-- Source `buildRadix` (the `root == nil` guard is unreachable: `Compile`
always passes a fresh root). -/
def buildRadix (root : Node) : RadixNode :=
  finalizeRadix (buildRadixNode root)

/-! ## Matching -/

/-- Source `(*radixNode).staticEdgeFor`: first-byte dispatch through the
index.  (On a built tree the stored index is always in range; `get?` models
the array access.) -/
def RadixNode.staticEdgeFor (n : RadixNode) (b : Nat) : Option (Str × RadixNode) :=
  if n.staticEdgeIndex b = 0 then none
  else n.staticEdges.get? (n.staticEdgeIndex b - 1)

theorem staticEdgeFor_size {n : RadixNode} {b : Nat} {l : Str} {t : RadixNode}
    (h : n.staticEdgeFor b = some (l, t)) : sizeR t < sizeR n := by
  unfold RadixNode.staticEdgeFor at h
  split at h
  · exact absurd h (by simp)
  · have hm : (l, t) ∈ n.staticEdges := List.get?_mem h
    cases n with
    | mk se idx p c hs m =>
      simp only [RadixNode.staticEdges] at hm
      have := sizeR_lt_of_mem_edges hm
      rw [sizeR]
      omega

theorem nextSegmentAt_bounds {path : Str} {pos : Nat} {seg : Str} {nextPos : Nat}
    (h : nextSegmentAt path pos = some (seg, nextPos)) :
    pos < path.length ∧ pos < nextPos ∧ nextPos ≤ path.length := by
  unfold nextSegmentAt at h
  split at h
  · exact absurd h (by simp)
  · next hcond =>
    push_neg at hcond
    split at h
    · next k hk =>
      simp only [Option.some.injEq, Prod.mk.injEq] at h
      have hklt : k < (path.drop (pos + 1)).length :=
        (List.findIdx?_eq_some_iff_findIdx_eq.mp hk).1
      rw [List.length_drop] at hklt
      omega
    · simp only [Option.some.injEq, Prod.mk.injEq] at h
      omega

/-- Source `(*radixNode).matchPath`: static edge first (recursing and
backtracking on failure), then the parameter edge, then the catch-all edge. -/
def matchPath (n : RadixNode) (path : Str) (pos : Nat)
    (params : List (Str × Str)) : Option (RadixNode × List (Str × Str)) :=
  if pos = path.length then some (n, params)
  else
    let sres : Option (RadixNode × List (Str × Str)) :=
      if hp : pos < path.length then
        match hs : n.staticEdgeFor (path.getD pos 0) with
        | some (l0, t0) =>
          if l0.isPrefixOf (path.drop pos) then
            have hsz : sizeR t0 < sizeR n := staticEdgeFor_size hs
            matchPath t0 path (pos + l0.length) params
          else none
        | none => none
      else none
    match sres with
    | some r => some r
    | none =>
      let pres : Option (RadixNode × List (Str × Str)) :=
        match n.paramChild with
        | some pe =>
          match hseg : nextSegmentAt path pos with
          | some (seg, nextPos) =>
            match matchParamSegment seg pe.pre pe.suf pe.matcher with
            | some value =>
              let sp := storeParam params (pe.name, value)
              if sp.2 then
                have hb := nextSegmentAt_bounds hseg
                matchPath pe.next path nextPos sp.1
              else none
            | none => none
          | none => none
        | none => none
      match pres with
      | some r => some r
      | none =>
        match n.catchAllChild with
        | some pe =>
          match catchAllAt path pos with
          | some rest =>
            match matchParamSegment rest pe.pre pe.suf pe.matcher with
            | some value =>
              let sp := storeParam params (pe.name, value)
              if sp.2 then some (pe.next, sp.1) else none
            | none => none
          | none => none
        | none => none
termination_by (path.length - pos, sizeR n)
decreasing_by
  · rcases Nat.eq_zero_or_pos l0.length with h0 | h0
    · rw [h0, Nat.add_zero]
      exact Prod.Lex.right _ hsz
    · exact Prod.Lex.left _ _ (by omega)
  · exact Prod.Lex.left _ _ (by omega)

/-- Source `(*radixNode).matchRoute`: the root special case for `/`, then the
general walk. -/
def matchRoute (n : RadixNode) (path : Str) :
    Option (RadixNode × List (Str × Str)) :=
  if path = [47] then some (n, []) else matchPath n path 0 []

/-- Loop of source `(*radixNode).findMount`: follow static edges greedily,
remembering the deepest mount that ends at a segment boundary. -/
def findMountLoop (cur : RadixNode) (path : Str) (pos : Nat)
    (candidate : Option Nat) : Option Nat :=
  if pos = path.length then candidate
  else
    match hs : cur.staticEdgeFor (path.getD pos 0) with
    | none => candidate
    | some (l0, t0) =>
      if hpre : l0.isPrefixOf (path.drop pos) then
        have hsz : sizeR t0 < sizeR cur := staticEdgeFor_size hs
        findMountLoop t0 path (pos + l0.length)
          (if t0.mount.isSome ∧ (pos + l0.length = path.length ∨
              (pos + l0.length < path.length ∧ path.getD (pos + l0.length) 0 = 47))
            then t0.mount else candidate)
      else candidate
termination_by (path.length - pos, sizeR cur)
decreasing_by
  rcases Nat.eq_zero_or_pos l0.length with h0 | h0
  · rw [h0, Nat.add_zero]
    exact Prod.Lex.right _ hsz
  · have hle : l0.length ≤ (path.drop pos).length := by
      have := List.isPrefixOf_iff_prefix.mp hpre
      exact this.length_le
    rw [List.length_drop] at hle
    exact Prod.Lex.left _ _ (by omega)

/-- Source `(*radixNode).findMount`. -/
def findMount (n : RadixNode) (path : Str) : Option Nat :=
  findMountLoop n path 0 n.mount

/-! ## Router dispatch (`Router.ServeHTTP`, `Router.Compile`) -/

/-- The serve-time outcome of one request, abstracting what
`Router.ServeHTTP` does: panic before compilation, dispatch a route handler
with its captures (`req.SetPathValue` loop), emit method-not-allowed with an
`Allow` value, dispatch a mount handler (with the unmodified path), or fall
through to not-found.  Custom `NotFound`/`MethodNotAllowed` handlers only
change who renders the outcome, not which outcome occurs. -/
inductive Outcome where
  | panicked
  | served (h : Nat) (captures : List (Str × Str))
  | methodNotAllowed (allow : Str)
  | mounted (h : Nat)
  | notFound
deriving DecidableEq, Repr

/-- Source `Router.ServeHTTP` on a request with a non-nil URL: `compiled`
and `root` model `r.state.compiled` / `r.state.root`.  (The Go code sets the
`Allow` header only when non-empty; it is always non-empty here because the
handler map is non-empty on that branch.) -/
def serveHTTP (compiled : Bool) (root : Option RadixNode) (method path : Str) :
    Outcome :=
  match root with
  | none => .panicked
  | some rt =>
    if ¬ compiled then .panicked
    else if path = [] ∨ path.headD 0 ≠ 47 then .notFound
    else
      let fallback : Outcome :=
        match findMount rt path with
        | some h => .mounted h
        | none => .notFound
      match matchRoute rt path with
      | some (leaf, params) =>
        match lookupA leaf.handlers method with
        | some h => .served h params
        | none =>
          if leaf.handlers.length > 0 then
            .methodNotAllowed (allowHeaderValue leaf.handlers)
          else fallback
      | none => fallback

/-- One registration record (`Router.Handle`): method, pattern, handler.
Middleware wrapping happens outside the core and is identity here. -/
structure RegRoute where
  method : Str
  pattern : Str
  handler : Nat

/-- One mount record (`Router.Mount`). -/
structure RegMount where
  pre : Str
  handler : Nat

/-- The route loop of source `Router.Compile`: validate and insert each
registered route in order, failing fast.  (`handler == nil` cannot occur in
the model, where a handler is always a `Nat`.) -/
def compileRoutes (root : Node) : List RegRoute → Except RouteErr Node
  | [] => .ok root
  | r :: rest =>
    if r.method = [] then .error .emptyMethod
    else
      match compilePattern r.pattern with
      | .error e => .error e
      | .ok cp =>
        match root.insertRoute r.method r.pattern cp.segments r.handler with
        | .error e => .error e
        | .ok root' => compileRoutes root' rest

/-- The mount loop of source `Router.Compile`: compile the prefix, require
every segment static, insert. -/
def compileMounts (root : Node) : List RegMount → Except RouteErr Node
  | [] => .ok root
  | mt :: rest =>
    match compilePattern mt.pre with
    | .error e => .error e
    | .ok cp =>
      if cp.segments.any (fun seg => seg.kind ≠ .static) then
        .error (.invalidMountPre mt.pre)
      else
        match root.insertMount mt.pre cp.segments mt.handler with
        | .error e => .error e
        | .ok root' => compileMounts root' rest

/-- Source `Router.Compile`: build the validating trie from the registration
sequence, then compact it once into the radix tree. -/
def compile (routes : List RegRoute) (mounts : List RegMount) :
    Except RouteErr RadixNode :=
  match compileRoutes newNode routes with
  | .error e => .error e
  | .ok root =>
    match compileMounts root mounts with
    | .error e => .error e
    | .ok root' => .ok (buildRadix root')

/-- Serve against the result of `compile`, exactly as a compiled router would
(`compiled = true`, `root` set) — or not-found-panicking behavior when
compilation failed and the router was never marked compiled. -/
def serveCompiled (c : Except RouteErr RadixNode) (method path : Str) : Outcome :=
  match c with
  | .error _ => serveHTTP false none method path
  | .ok rt => serveHTTP true (some rt) method path

/-! ## Route resolution (dispatch-relevant part of a match result) -/

/-- The dispatch-relevant result of a path match for one method: the selected
handler with captures, method-not-allowed with its `Allow` value, or no route
(fall through to mounts / not-found). -/
inductive Resolution where
  | handlerFor (h : Nat) (captures : List (Str × Str))
  | notAllowed (allow : Str)
  | noRoute
deriving DecidableEq, Repr

/-- Resolution step of `ServeHTTP` applied to a match result. -/
def resolveOf (res : Option (List (Str × Nat) × List (Str × Str)))
    (method : Str) : Resolution :=
  match res with
  | some (handlers, params) =>
    match lookupA handlers method with
    | some h => .handlerFor h params
    | none =>
      if handlers.length > 0 then .notAllowed (allowHeaderValue handlers)
      else .noRoute
  | none => .noRoute

/-- Resolution of a request against the radix tree (what `ServeHTTP` does
before consulting mounts). -/
def resolveRadix (rt : RadixNode) (method path : Str) : Resolution :=
  resolveOf ((matchRoute rt path).map (fun r => (r.1.handlers, r.2))) method

/-! ## Spec-modelled trie walk (claim C4's comparison semantics)

The code never matches against the validating trie — it is compacted into the
radix tree first.  Claim C4 compares radix matching with "a direct
segment-by-segment walk of the validating trie under the same precedence
rules", so that walk is modelled here from the spec (§4.4 applied to the
trie): leaf on path exhaustion; static child for the next `/`-delimited
segment first, with backtracking; then the parameter edge (same
prefix/suffix/constraint rule and capture bound); then the terminal
catch-all. -/

/-- Modelled from the spec: the §4.4 matching walk applied directly to the
validating trie, segment by segment, static before parameter before
catch-all, backtracking on downstream failure, captures bounded as in
`storeParam`. -/
def trieMatchPath (n : Node) (path : Str) (pos : Nat)
    (params : List (Str × Str)) : Option (Node × List (Str × Str)) :=
  if pos = path.length then some (n, params)
  else
    let sres : Option (Node × List (Str × Str)) :=
      match hseg : nextSegmentAt path pos with
      | some (seg, nextPos) =>
        match lookupA n.staticChildren seg with
        | some child =>
          have hb := nextSegmentAt_bounds hseg
          trieMatchPath child path nextPos params
        | none => none
      | none => none
    match sres with
    | some r => some r
    | none =>
      let pres : Option (Node × List (Str × Str)) :=
        match n.paramChild with
        | some pe =>
          match hseg : nextSegmentAt path pos with
          | some (seg, nextPos) =>
            match matchParamSegment seg pe.pre pe.suf pe.matcher with
            | some value =>
              let sp := storeParam params (pe.name, value)
              if sp.2 then
                have hb := nextSegmentAt_bounds hseg
                trieMatchPath pe.next path nextPos sp.1
              else none
            | none => none
          | none => none
        | none => none
      match pres with
      | some r => some r
      | none =>
        match n.catchAllChild with
        | some pe =>
          match catchAllAt path pos with
          | some rest =>
            match matchParamSegment rest pe.pre pe.suf pe.matcher with
            | some value =>
              let sp := storeParam params (pe.name, value)
              if sp.2 then some (pe.next, sp.1) else none
            | none => none
          | none => none
        | none => none
termination_by path.length - pos
decreasing_by
  · omega
  · omega

/-- Modelled from the spec: the root special case (`/` matches the root with
zero captures) and the general trie walk. -/
def trieMatchRoute (n : Node) (path : Str) :
    Option (Node × List (Str × Str)) :=
  if path = [47] then some (n, []) else trieMatchPath n path 0 []

/-- Resolution of a request against the validating trie under the
spec-modelled walk. -/
def resolveTrie (t : Node) (method path : Str) : Resolution :=
  resolveOf ((trieMatchRoute t path).map (fun r => (r.1.handlers, r.2))) method

/-! ## Concrete routers used by the claims -/

/-- Method string `GET`. -/
def mGET : Str := bytes "GET"

/-- Method string `POST`. -/
def mPOST : Str := bytes "POST"

/-- Method string `DELETE`. -/
def mDELETE : Str := bytes "DELETE"

/-- Routes of claim C3: `/users/me`, `/users/{id}`, `/users/{rest...}`. -/
def routesC3 : List RegRoute :=
  [⟨mGET, bytes "/users/me", 1⟩, ⟨mGET, bytes "/users/{id}", 2⟩,
   ⟨mGET, bytes "/users/{rest...}", 3⟩]

/-- Routes of claim C5: `/files/{path...}`. -/
def routesC5 : List RegRoute := [⟨mGET, bytes "/files/{path...}", 1⟩]

/-! ## Claims -/

/-- C3.  For every node during matching, branches are tried in the fixed order
static, then parameter, then catch-all, with backtracking on downstream
failure (this order is the structure of `matchPath`); in particular, with
`/users/me`, `/users/{id}` and `/users/{rest...}` all registered, `/users/me`
resolves to the static handler with zero captures, `/users/42` to the
parameter handler with capture `id=42`, and `/users/a/b` to the catch-all
handler with capture `rest=a/b`. -/
theorem precedence_static_param_catchAll :
    serveCompiled (compile routesC3 []) mGET (bytes "/users/me") = .served 1 [] ∧
    serveCompiled (compile routesC3 []) mGET (bytes "/users/42") =
      .served 2 [(bytes "id", bytes "42")] ∧
    serveCompiled (compile routesC3 []) mGET (bytes "/users/a/b") =
      .served 3 [(bytes "rest", bytes "a/b")] := by
  refine ⟨?_, ?_, ?_⟩ <;>
  simp +decide [serveCompiled, compile, compileRoutes, compileMounts, compilePattern,
    compileSegList, parseSegment, parseSegmentLoop, parseParamBody, parseSegmentParam,
    validateParamName, cut, sub, bytes, splitPathSegments, splitOnSlash,
    compileSegmentExpr, parseByteClass, parseByteClassLoop, readClassAtom,
    newByteClassMatcher, Node.insertRoute, newNode, lookupA, updateA, mGET, routesC3,
    buildRadix, buildRadixNode, buildRadixPE, buildRadixCE, buildRadixChildren,
    compressStaticChain, compressStaticChainLoop, insertRadixStaticEdge,
    insertRadixEdges, mergeRadixSubtree, mergeRadixEdges, longestCommonPrefix,
    finalizeRadix, finalizeEdges, finalizeRPE, sortEdges, insertEdgeSorted, strLt,
    buildEdgeIdx, serveHTTP, matchRoute, matchPath, RadixNode.staticEdgeFor,
    nextSegmentAt, catchAllAt, matchParamSegment, storeParam, allowHeaderValue,
    findMount, findMountLoop, Node.staticChildren, Node.paramChild, Node.catchAllChild,
    Node.handlers, Node.mount, ParamEdge.name, ParamEdge.expr, ParamEdge.pre,
    ParamEdge.suf, ParamEdge.matcher, ParamEdge.next,
    RadixNode.staticEdges, RadixNode.staticEdgeIndex, RadixNode.paramChild,
    RadixNode.catchAllChild, RadixNode.handlers, RadixNode.mount,
    RadixParamEdge.name, RadixParamEdge.pre, RadixParamEdge.suf,
    RadixParamEdge.matcher, RadixParamEdge.next, ByteClassMatcher.Match,
    Function.update, emptyRadix, joinStr, sortStrings, List.insertionSort, List.orderedInsert, strLe]

/-- C5.  With `/files/{path...}` registered: `/files/a/b/c.txt` is served by
that route with capture `path=a/b/c.txt` (the remainder after the leading `/`,
slashes included); `/files` is not served by it (not-found); `/files/` is
served with capture `path=""`. -/
theorem catchAll_boundary :
    serveCompiled (compile routesC5 []) mGET (bytes "/files/a/b/c.txt") =
      .served 1 [(bytes "path", bytes "a/b/c.txt")] ∧
    serveCompiled (compile routesC5 []) mGET (bytes "/files") = .notFound ∧
    serveCompiled (compile routesC5 []) mGET (bytes "/files/") =
      .served 1 [(bytes "path", [])] := by
  refine ⟨?_, ?_, ?_⟩ <;>
  simp +decide [serveCompiled, compile, compileRoutes, compileMounts, compilePattern,
    compileSegList, parseSegment, parseSegmentLoop, parseParamBody, parseSegmentParam,
    validateParamName, cut, sub, bytes, splitPathSegments, splitOnSlash,
    compileSegmentExpr, parseByteClass, parseByteClassLoop, readClassAtom,
    newByteClassMatcher, Node.insertRoute, newNode, lookupA, updateA, mGET, routesC5,
    buildRadix, buildRadixNode, buildRadixPE, buildRadixCE, buildRadixChildren,
    compressStaticChain, compressStaticChainLoop, insertRadixStaticEdge,
    insertRadixEdges, mergeRadixSubtree, mergeRadixEdges, longestCommonPrefix,
    finalizeRadix, finalizeEdges, finalizeRPE, sortEdges, insertEdgeSorted, strLt,
    buildEdgeIdx, serveHTTP, matchRoute, matchPath, RadixNode.staticEdgeFor,
    nextSegmentAt, catchAllAt, matchParamSegment, storeParam, allowHeaderValue,
    findMount, findMountLoop, Node.staticChildren, Node.paramChild, Node.catchAllChild,
    Node.handlers, Node.mount, ParamEdge.name, ParamEdge.expr, ParamEdge.pre,
    ParamEdge.suf, ParamEdge.matcher, ParamEdge.next,
    RadixNode.staticEdges, RadixNode.staticEdgeIndex, RadixNode.paramChild,
    RadixNode.catchAllChild, RadixNode.handlers, RadixNode.mount,
    RadixParamEdge.name, RadixParamEdge.pre, RadixParamEdge.suf,
    RadixParamEdge.matcher, RadixParamEdge.next, ByteClassMatcher.Match,
    Function.update, emptyRadix, joinStr, sortStrings, List.insertionSort, List.orderedInsert, strLe]

/-- Routes of claim C1: nine parameter segments along one path. -/
def routesC1 : List RegRoute :=
  [⟨mGET, bytes "/{a}/{b}/{c}/{d}/{e}/{f}/{g}/{h}/{i}", 1⟩]

/-- Routes of claim C1 (within-capacity variant): eight parameter segments. -/
def routesC1b : List RegRoute :=
  [⟨mGET, bytes "/{a}/{b}/{c}/{d}/{e}/{f}/{g}/{h}", 1⟩]

/-- C1 counterexample.  The claim says a match whose path carries more than 8
parameters still succeeds with the captures beyond the capacity silently
dropped.  On the code, `matchPath` treats a failed `storeParam` as failure of
that branch: with nine parameter segments registered, the nine-segment request
does not match at all (not-found), instead of being served with the first 8
captures. -/
theorem capture_overflow_counterexample :
    (compile routesC1 []).isOk = true ∧
    serveCompiled (compile routesC1 []) mGET (bytes "/1/2/3/4/5/6/7/8/9") =
      .notFound ∧
    serveCompiled (compile routesC1 []) mGET (bytes "/1/2/3/4/5/6/7/8/9") ≠
      .served 1 [(bytes "a", bytes "1"), (bytes "b", bytes "2"),
        (bytes "c", bytes "3"), (bytes "d", bytes "4"), (bytes "e", bytes "5"),
        (bytes "f", bytes "6"), (bytes "g", bytes "7"), (bytes "h", bytes "8")] := by
  refine ⟨?_, ?_, ?_⟩ <;>
  simp +decide [serveCompiled, compile, compileRoutes, compileMounts, compilePattern,
    compileSegList, parseSegment, parseSegmentLoop, parseParamBody, parseSegmentParam,
    validateParamName, cut, sub, bytes, splitPathSegments, splitOnSlash,
    compileSegmentExpr, parseByteClass, parseByteClassLoop, readClassAtom,
    newByteClassMatcher, Node.insertRoute, newNode, lookupA, updateA, mGET, routesC1,
    buildRadix, buildRadixNode, buildRadixPE, buildRadixCE, buildRadixChildren,
    compressStaticChain, compressStaticChainLoop, insertRadixStaticEdge,
    insertRadixEdges, mergeRadixSubtree, mergeRadixEdges, longestCommonPrefix,
    finalizeRadix, finalizeEdges, finalizeRPE, sortEdges, insertEdgeSorted, strLt,
    buildEdgeIdx, serveHTTP, matchRoute, matchPath, RadixNode.staticEdgeFor,
    nextSegmentAt, catchAllAt, matchParamSegment, storeParam, allowHeaderValue,
    findMount, findMountLoop, Node.staticChildren, Node.paramChild, Node.catchAllChild,
    Node.handlers, Node.mount, ParamEdge.name, ParamEdge.expr, ParamEdge.pre,
    ParamEdge.suf, ParamEdge.matcher, ParamEdge.next,
    RadixNode.staticEdges, RadixNode.staticEdgeIndex, RadixNode.paramChild,
    RadixNode.catchAllChild, RadixNode.handlers, RadixNode.mount,
    RadixParamEdge.name, RadixParamEdge.pre, RadixParamEdge.suf,
    RadixParamEdge.matcher, RadixParamEdge.next, ByteClassMatcher.Match,
    Function.update, emptyRadix, joinStr, sortStrings, List.insertionSort, List.orderedInsert, strLe]

/-- C1 amended.  The capture array holds at most 8 captures: `storeParam`
refuses the 9th (returning the array unchanged and `false`), and `matchPath`
abandons the branch whose capture could not be stored — so a request whose
matched path would carry more than 8 parameters fails to match (not-found)
rather than succeeding with truncated captures; a path with up to 8
parameters matches with all captures kept in encounter order. -/
theorem capture_overflow_amended :
    (∀ (params : List (Str × Str)) (p : Str × Str), params.length ≥ 8 →
      storeParam params p = (params, false)) ∧
    (∀ (params : List (Str × Str)) (p : Str × Str), params.length < 8 →
      storeParam params p = (params ++ [p], true)) ∧
    serveCompiled (compile routesC1b []) mGET (bytes "/1/2/3/4/5/6/7/8") =
      .served 1 [(bytes "a", bytes "1"), (bytes "b", bytes "2"),
        (bytes "c", bytes "3"), (bytes "d", bytes "4"), (bytes "e", bytes "5"),
        (bytes "f", bytes "6"), (bytes "g", bytes "7"), (bytes "h", bytes "8")] ∧
    serveCompiled (compile routesC1 []) mGET (bytes "/1/2/3/4/5/6/7/8/9") =
      .notFound := by
  refine ⟨?_, ?_, ?_, ?_⟩
  · intro params p hlen
    rw [storeParam, if_pos hlen]
  · intro params p hlen
    rw [storeParam, if_neg (by omega)]
  all_goals
  simp +decide [serveCompiled, compile, compileRoutes, compileMounts, compilePattern,
    compileSegList, parseSegment, parseSegmentLoop, parseParamBody, parseSegmentParam,
    validateParamName, cut, sub, bytes, splitPathSegments, splitOnSlash,
    compileSegmentExpr, parseByteClass, parseByteClassLoop, readClassAtom,
    newByteClassMatcher, Node.insertRoute, newNode, lookupA, updateA, mGET, routesC1,
    routesC1b,
    buildRadix, buildRadixNode, buildRadixPE, buildRadixCE, buildRadixChildren,
    compressStaticChain, compressStaticChainLoop, insertRadixStaticEdge,
    insertRadixEdges, mergeRadixSubtree, mergeRadixEdges, longestCommonPrefix,
    finalizeRadix, finalizeEdges, finalizeRPE, sortEdges, insertEdgeSorted, strLt,
    buildEdgeIdx, serveHTTP, matchRoute, matchPath, RadixNode.staticEdgeFor,
    nextSegmentAt, catchAllAt, matchParamSegment, storeParam, allowHeaderValue,
    findMount, findMountLoop, Node.staticChildren, Node.paramChild, Node.catchAllChild,
    Node.handlers, Node.mount, ParamEdge.name, ParamEdge.expr, ParamEdge.pre,
    ParamEdge.suf, ParamEdge.matcher, ParamEdge.next,
    RadixNode.staticEdges, RadixNode.staticEdgeIndex, RadixNode.paramChild,
    RadixNode.catchAllChild, RadixNode.handlers, RadixNode.mount,
    RadixParamEdge.name, RadixParamEdge.pre, RadixParamEdge.suf,
    RadixParamEdge.matcher, RadixParamEdge.next, ByteClassMatcher.Match,
    Function.update, emptyRadix, joinStr, sortStrings, List.insertionSort, List.orderedInsert, strLe]

/-- C1 amended, witness: the 8-capture array refuses a 9th entry and accepts
an 8th, as the amended theorem states, at concrete inputs. -/
theorem capture_overflow_amended_witness :
    storeParam [(bytes "a", bytes "1"), (bytes "b", bytes "2"),
      (bytes "c", bytes "3"), (bytes "d", bytes "4"), (bytes "e", bytes "5"),
      (bytes "f", bytes "6"), (bytes "g", bytes "7"), (bytes "h", bytes "8")]
      (bytes "i", bytes "9") =
      ([(bytes "a", bytes "1"), (bytes "b", bytes "2"), (bytes "c", bytes "3"),
        (bytes "d", bytes "4"), (bytes "e", bytes "5"), (bytes "f", bytes "6"),
        (bytes "g", bytes "7"), (bytes "h", bytes "8")], false) ∧
    storeParam [] (bytes "a", bytes "1") = ([(bytes "a", bytes "1")], true) :=
  ⟨capture_overflow_amended.1 _ _ (by decide),
   capture_overflow_amended.2.1 _ _ (by decide)⟩

/-- Routes of claim C2: a two-parameter segment `/x/{a}-{b}`. -/
def routesC2 : List RegRoute := [⟨mGET, bytes "/x/{a}-{b}", 1⟩]

/-- C2 evaluation at the failing input.  Compilation of `/x/{a}-{b}` succeeds
and the parser does build the ordered template (literals `"", "-", ""`,
parameters `a`, `b`), but `insertRoute` never reads `tmpl`: the inserted
parameter edge has the zero-value name/prefix/suffix/matcher, so `/x/1-2` is
served with the single capture `"" = "1-2"` (not `a=1`, `b=2`), and even
`/x/zzz` — with no `-` separator at all — matches. -/
theorem multiParam_template_ignored :
    (compile routesC2 []).isOk = true ∧
    ((parseSegment (bytes "{a}-{b}")).toOption.bind (fun s => s.tmpl)).map
      (fun t => (t.literals, t.params.map (fun p => p.name))) =
      some ([[], bytes "-", []], [bytes "a", bytes "b"]) ∧
    serveCompiled (compile routesC2 []) mGET (bytes "/x/1-2") =
      .served 1 [([], bytes "1-2")] ∧
    serveCompiled (compile routesC2 []) mGET (bytes "/x/zzz") =
      .served 1 [([], bytes "zzz")] := by
  refine ⟨?_, ?_, ?_, ?_⟩ <;>
  simp +decide [serveCompiled, compile, compileRoutes, compileMounts, compilePattern,
    compileSegList, parseSegment, parseSegmentLoop, parseParamBody, parseSegmentParam,
    validateParamName, cut, sub, bytes, splitPathSegments, splitOnSlash,
    compileSegmentExpr, parseByteClass, parseByteClassLoop, readClassAtom,
    newByteClassMatcher, Node.insertRoute, newNode, lookupA, updateA, mGET, routesC2,
    buildRadix, buildRadixNode, buildRadixPE, buildRadixCE, buildRadixChildren,
    compressStaticChain, compressStaticChainLoop, insertRadixStaticEdge,
    insertRadixEdges, mergeRadixSubtree, mergeRadixEdges, longestCommonPrefix,
    finalizeRadix, finalizeEdges, finalizeRPE, sortEdges, insertEdgeSorted, strLt,
    buildEdgeIdx, serveHTTP, matchRoute, matchPath, RadixNode.staticEdgeFor,
    nextSegmentAt, catchAllAt, matchParamSegment, storeParam, allowHeaderValue,
    findMount, findMountLoop, Node.staticChildren, Node.paramChild, Node.catchAllChild,
    Node.handlers, Node.mount, ParamEdge.name, ParamEdge.expr, ParamEdge.pre,
    ParamEdge.suf, ParamEdge.matcher, ParamEdge.next,
    RadixNode.staticEdges, RadixNode.staticEdgeIndex, RadixNode.paramChild,
    RadixNode.catchAllChild, RadixNode.handlers, RadixNode.mount,
    RadixParamEdge.name, RadixParamEdge.pre, RadixParamEdge.suf,
    RadixParamEdge.matcher, RadixParamEdge.next, ByteClassMatcher.Match,
    Function.update, emptyRadix, joinStr, sortStrings, List.insertionSort, List.orderedInsert, strLe]

/-- Routes of claim C4: `/a/b` (a two-segment static chain) and `/{p}`. -/
def routesC4 : List RegRoute :=
  [⟨mGET, bytes "/a/b", 1⟩, ⟨mGET, bytes "/{p}", 2⟩]

/-- The validating trie built from `routesC4` (insertion succeeds). -/
def trieC4 : Node :=
  match compileRoutes newNode routesC4 with
  | .ok t => t
  | .error _ => newNode

/-- C4 counterexample.  Radix compaction does not preserve the match outcome.
With `/a/b` and `/{p}` registered, request `/a`: the spec's direct
segment-by-segment walk of the validating trie stops successfully at the
content-free intermediate node `/a` (empty method-to-handler mapping, no
captures), while the radix tree — whose chain compression removed that node,
making its edge label `/a/b` — fails the static branch, backtracks, and
matches the parameter route with capture `p=a` and a non-empty handler
mapping.  Leaf mapping, captures and match success/failure all differ. -/
theorem compaction_not_behavior_preserving :
    (compileRoutes newNode routesC4).isOk = true ∧
    (trieMatchRoute trieC4 (bytes "/a")).map (fun r => (r.1.handlers, r.2)) =
      some ([], []) ∧
    (matchRoute (buildRadix trieC4) (bytes "/a")).map
      (fun r => (r.1.handlers, r.2)) =
      some ([(mGET, 2)], [(bytes "p", bytes "a")]) ∧
    (some (([], []) : List (Str × Nat) × List (Str × Str)) ≠
      some ([(mGET, 2)], [(bytes "p", bytes "a")])) := by
  refine ⟨?_, ?_, ?_, ?_⟩ <;>
  simp +decide [compile, compileRoutes, compileMounts, compilePattern,
    compileSegList, parseSegment, parseSegmentLoop, parseParamBody, parseSegmentParam,
    validateParamName, cut, sub, bytes, splitPathSegments, splitOnSlash,
    compileSegmentExpr, parseByteClass, parseByteClassLoop, readClassAtom,
    newByteClassMatcher, Node.insertRoute, newNode, lookupA, updateA, mGET, routesC4,
    trieC4, trieMatchRoute, trieMatchPath,
    buildRadix, buildRadixNode, buildRadixPE, buildRadixCE, buildRadixChildren,
    compressStaticChain, compressStaticChainLoop, insertRadixStaticEdge,
    insertRadixEdges, mergeRadixSubtree, mergeRadixEdges, longestCommonPrefix,
    finalizeRadix, finalizeEdges, finalizeRPE, sortEdges, insertEdgeSorted, strLt,
    buildEdgeIdx, matchRoute, matchPath, RadixNode.staticEdgeFor,
    nextSegmentAt, catchAllAt, matchParamSegment, storeParam,
    Node.staticChildren, Node.paramChild, Node.catchAllChild,
    Node.handlers, Node.mount, ParamEdge.name, ParamEdge.expr, ParamEdge.pre,
    ParamEdge.suf, ParamEdge.matcher, ParamEdge.next,
    RadixNode.staticEdges, RadixNode.staticEdgeIndex, RadixNode.paramChild,
    RadixNode.catchAllChild, RadixNode.handlers, RadixNode.mount,
    RadixParamEdge.name, RadixParamEdge.pre, RadixParamEdge.suf,
    RadixParamEdge.matcher, RadixParamEdge.next, ByteClassMatcher.Match,
    Function.update, emptyRadix]

/-- C4 amended.  Radix compaction changes behavior on paths that end at a
compacted-away (content-free, single-child) trie node: there the trie walk
reports a successful match with an empty handler mapping while the radix walk
reports failure and goes on to try parameter/catch-all branches — which can
change the dispatched handler, not merely the raw match result.  Concretely,
for `/a/b` plus `/{p}` and request `/a`, the trie walk resolves to no route
(its matched leaf has an empty mapping) while the compiled radix tree serves
the parameter handler with `p=a`. -/
theorem compaction_divergence_amended :
    resolveTrie trieC4 mGET (bytes "/a") = .noRoute ∧
    resolveRadix (buildRadix trieC4) mGET (bytes "/a") =
      .handlerFor 2 [(bytes "p", bytes "a")] ∧
    serveCompiled (compile routesC4 []) mGET (bytes "/a") =
      .served 2 [(bytes "p", bytes "a")] := by
  refine ⟨?_, ?_, ?_⟩ <;>
  simp +decide [serveCompiled, compile, compileRoutes, compileMounts, compilePattern,
    compileSegList, parseSegment, parseSegmentLoop, parseParamBody, parseSegmentParam,
    validateParamName, cut, sub, bytes, splitPathSegments, splitOnSlash,
    compileSegmentExpr, parseByteClass, parseByteClassLoop, readClassAtom,
    newByteClassMatcher, Node.insertRoute, newNode, lookupA, updateA, mGET, routesC4,
    trieC4, trieMatchRoute, trieMatchPath, resolveTrie, resolveRadix, resolveOf,
    buildRadix, buildRadixNode, buildRadixPE, buildRadixCE, buildRadixChildren,
    compressStaticChain, compressStaticChainLoop, insertRadixStaticEdge,
    insertRadixEdges, mergeRadixSubtree, mergeRadixEdges, longestCommonPrefix,
    finalizeRadix, finalizeEdges, finalizeRPE, sortEdges, insertEdgeSorted, strLt,
    buildEdgeIdx, serveHTTP, matchRoute, matchPath, RadixNode.staticEdgeFor,
    nextSegmentAt, catchAllAt, matchParamSegment, storeParam, allowHeaderValue,
    findMount, findMountLoop, Node.staticChildren, Node.paramChild, Node.catchAllChild,
    Node.handlers, Node.mount, ParamEdge.name, ParamEdge.expr, ParamEdge.pre,
    ParamEdge.suf, ParamEdge.matcher, ParamEdge.next,
    RadixNode.staticEdges, RadixNode.staticEdgeIndex, RadixNode.paramChild,
    RadixNode.catchAllChild, RadixNode.handlers, RadixNode.mount,
    RadixParamEdge.name, RadixParamEdge.pre, RadixParamEdge.suf,
    RadixParamEdge.matcher, RadixParamEdge.next, ByteClassMatcher.Match,
    Function.update, emptyRadix, joinStr, sortStrings, List.insertionSort, List.orderedInsert, strLe]

/-- A `byteClassMatcher` accepts exactly the strings long enough for its
minimum length whose bytes all lie in the allow-set. -/
theorem byteClassMatcher_Match_iff (m : ByteClassMatcher) (v : Str) :
    m.Match v = true ↔ (m.minLen ≤ v.length ∧ v.all m.allow = true) := by
  rw [ByteClassMatcher.Match]
  split
  · constructor
    · intro h; exact absurd h (by simp)
    · intro ⟨h1, _⟩; omega
  · constructor
    · intro h; exact ⟨by omega, h⟩
    · intro ⟨_, h⟩; exact h

/-- Characterization of `matchParamSegment` with a constraint matcher: the
segment matches iff it is long enough for prefix plus suffix, starts with the
prefix, ends with the suffix, and the inner value satisfies the matcher. -/
theorem matchParamSegment_spec (seg p s : Str) (m : ByteClassMatcher) :
    (matchParamSegment seg p s (some m)).isSome = true ↔
    (p.length + s.length ≤ seg.length ∧ p <+: seg ∧ s <:+ seg ∧
     m.minLen ≤ (sub seg p.length (seg.length - s.length)).length ∧
     (sub seg p.length (seg.length - s.length)).all m.allow = true) := by
  rw [matchParamSegment]
  by_cases h1 : seg.length < p.length + s.length
  · rw [if_pos h1]
    simp only [Option.isSome_none, Bool.false_eq_true, false_iff]
    intro ⟨h, _⟩
    omega
  · rw [if_neg h1]
    by_cases h2 : p ≠ [] ∧ ¬ p.isPrefixOf seg
    · rw [if_pos h2]
      simp only [Option.isSome_none, Bool.false_eq_true, false_iff]
      intro ⟨_, hp, _⟩
      exact h2.2 (List.isPrefixOf_iff_prefix.mpr hp)
    · rw [if_neg h2]
      have hp : p <+: seg := by
        by_cases hpn : p = []
        · subst hpn; exact List.nil_prefix
        · rcases not_and_or.mp h2 with h | h
          · exact absurd hpn (by simpa using h)
          · exact List.isPrefixOf_iff_prefix.mp (by simpa using h)
      by_cases h3 : s ≠ [] ∧ ¬ s.isSuffixOf seg
      · rw [if_pos h3]
        simp only [Option.isSome_none, Bool.false_eq_true, false_iff]
        intro ⟨_, _, hs, _⟩
        exact h3.2 (List.isSuffixOf_iff_suffix.mpr hs)
      · rw [if_neg h3]
        have hs : s <:+ seg := by
          by_cases hsn : s = []
          · subst hsn; exact List.nil_suffix
          · rcases not_and_or.mp h3 with h | h
            · exact absurd hsn (by simpa using h)
            · exact List.isSuffixOf_iff_suffix.mp (by simpa using h)
        simp only []
        constructor
        · intro h
          have hm : m.Match (sub seg p.length (seg.length - s.length)) = true := by
            by_cases hmm : m.Match (sub seg p.length (seg.length - s.length)) = true
            · exact hmm
            · rw [if_neg hmm] at h; exact absurd h (by simp)
          have := (byteClassMatcher_Match_iff m _).mp hm
          exact ⟨by omega, hp, hs, this.1, this.2⟩
        · intro ⟨_, _, _, hlen, hall⟩
          rw [if_pos ((byteClassMatcher_Match_iff m _).mpr ⟨hlen, hall⟩)]
          simp

/-- Routes of claim C6: `/api/{name:[0-9]+}.json`. -/
def routesC6 : List RegRoute := [⟨mGET, bytes "/api/{name:[0-9]+}.json", 1⟩]

/-- C6.  A parameter segment with prefix `p`, suffix `s` and constraint
matcher `m` matches a request segment `seg` iff `len(seg) ≥ len(p)+len(s)`,
`seg` starts with `p`, ends with `s`, and the inner substring has length at
least the matcher's minimum with every byte in the allow-set; consequently
`/api/{name:[0-9]+}.json` serves `/api/123.json` with capture `name=123` and
rejects `/api/abc.json` and `/api/123.txt` as not-found. -/
theorem constraint_affix_matching :
    (∀ (seg p s : Str) (m : ByteClassMatcher),
      (matchParamSegment seg p s (some m)).isSome = true ↔
      (p.length + s.length ≤ seg.length ∧ p <+: seg ∧ s <:+ seg ∧
       m.minLen ≤ (sub seg p.length (seg.length - s.length)).length ∧
       (sub seg p.length (seg.length - s.length)).all m.allow = true)) ∧
    serveCompiled (compile routesC6 []) mGET (bytes "/api/123.json") =
      .served 1 [(bytes "name", bytes "123")] ∧
    serveCompiled (compile routesC6 []) mGET (bytes "/api/abc.json") = .notFound ∧
    serveCompiled (compile routesC6 []) mGET (bytes "/api/123.txt") = .notFound := by
  refine ⟨matchParamSegment_spec, ?_, ?_, ?_⟩ <;>
  simp +decide [serveCompiled, compile, compileRoutes, compileMounts, compilePattern,
    compileSegList, parseSegment, parseSegmentLoop, parseParamBody, parseSegmentParam,
    validateParamName, cut, sub, bytes, splitPathSegments, splitOnSlash,
    compileSegmentExpr, parseByteClass, parseByteClassLoop, readClassAtom,
    newByteClassMatcher, Node.insertRoute, newNode, lookupA, updateA, mGET, routesC6,
    buildRadix, buildRadixNode, buildRadixPE, buildRadixCE, buildRadixChildren,
    compressStaticChain, compressStaticChainLoop, insertRadixStaticEdge,
    insertRadixEdges, mergeRadixSubtree, mergeRadixEdges, longestCommonPrefix,
    finalizeRadix, finalizeEdges, finalizeRPE, sortEdges, insertEdgeSorted, strLt,
    buildEdgeIdx, serveHTTP, matchRoute, matchPath, RadixNode.staticEdgeFor,
    nextSegmentAt, catchAllAt, matchParamSegment, storeParam, allowHeaderValue,
    findMount, findMountLoop, Node.staticChildren, Node.paramChild, Node.catchAllChild,
    Node.handlers, Node.mount, ParamEdge.name, ParamEdge.expr, ParamEdge.pre,
    ParamEdge.suf, ParamEdge.matcher, ParamEdge.next,
    RadixNode.staticEdges, RadixNode.staticEdgeIndex, RadixNode.paramChild,
    RadixNode.catchAllChild, RadixNode.handlers, RadixNode.mount,
    RadixParamEdge.name, RadixParamEdge.pre, RadixParamEdge.suf,
    RadixParamEdge.matcher, RadixParamEdge.next, ByteClassMatcher.Match,
    Function.update, emptyRadix, joinStr, sortStrings, List.insertionSort,
    List.orderedInsert, strLe]

/-- Routes of claim C7: `GET` and `POST` on `/users`. -/
def routesC7 : List RegRoute :=
  [⟨mGET, bytes "/users", 1⟩, ⟨mPOST, bytes "/users", 2⟩]

/-- C7.  Whenever a request path matches a leaf whose handler mapping is
non-empty but lacks the request method, the outcome is method-not-allowed and
the `Allow` value is exactly the leaf's registered methods sorted ascending
(byte-lexicographically) and joined with `", "`; with `GET` and `POST` on
`/users`, a `DELETE /users` request yields exactly `GET, POST`. -/
theorem methodNotAllowed_allow_value :
    (∀ (rt : RadixNode) (method path : Str) (leaf : RadixNode)
        (params : List (Str × Str)),
      path ≠ [] → path.headD 0 = 47 →
      matchRoute rt path = some (leaf, params) →
      lookupA leaf.handlers method = none →
      leaf.handlers ≠ [] →
      serveHTTP true (some rt) method path =
        .methodNotAllowed (joinStr (bytes ", ")
          (sortStrings (leaf.handlers.map Prod.fst))) ∧
      (sortStrings (leaf.handlers.map Prod.fst)).Perm
        (leaf.handlers.map Prod.fst) ∧
      List.Sorted strLe (sortStrings (leaf.handlers.map Prod.fst))) ∧
    serveCompiled (compile routesC7 []) mDELETE (bytes "/users") =
      .methodNotAllowed (bytes "GET, POST") := by
  constructor
  · intro rt method path leaf params hp1 hp2 hm hlk hne
    refine ⟨?_, sortStrings_perm _, sortStrings_sorted _⟩
    have hlen : leaf.handlers.length > 0 := by
      cases hh : leaf.handlers with
      | nil => exact absurd hh hne
      | cons a b => simp [hh]
    rw [serveHTTP]
    rw [if_neg (by simp)]
    rw [if_neg (by push_neg; exact ⟨hp1, hp2⟩)]
    rw [hm]
    simp only [hlk]
    rw [if_pos hlen]
    rw [allowHeaderValue, if_neg (by omega)]
  · simp +decide [serveCompiled, compile, compileRoutes, compileMounts,
      compilePattern, compileSegList, parseSegment, parseSegmentLoop,
      parseParamBody, parseSegmentParam, validateParamName, cut, sub, bytes,
      splitPathSegments, splitOnSlash, compileSegmentExpr, parseByteClass,
      parseByteClassLoop, readClassAtom, newByteClassMatcher, Node.insertRoute,
      newNode, lookupA, updateA, mGET, mPOST, mDELETE, routesC7,
      buildRadix, buildRadixNode, buildRadixPE, buildRadixCE, buildRadixChildren,
      compressStaticChain, compressStaticChainLoop, insertRadixStaticEdge,
      insertRadixEdges, mergeRadixSubtree, mergeRadixEdges, longestCommonPrefix,
      finalizeRadix, finalizeEdges, finalizeRPE, sortEdges, insertEdgeSorted, strLt,
      buildEdgeIdx, serveHTTP, matchRoute, matchPath, RadixNode.staticEdgeFor,
      nextSegmentAt, catchAllAt, matchParamSegment, storeParam, allowHeaderValue,
      findMount, findMountLoop, Node.staticChildren, Node.paramChild,
      Node.catchAllChild, Node.handlers, Node.mount, ParamEdge.name,
      ParamEdge.expr, ParamEdge.pre, ParamEdge.suf, ParamEdge.matcher,
      ParamEdge.next, RadixNode.staticEdges, RadixNode.staticEdgeIndex,
      RadixNode.paramChild, RadixNode.catchAllChild, RadixNode.handlers,
      RadixNode.mount, RadixParamEdge.name, RadixParamEdge.pre,
      RadixParamEdge.suf, RadixParamEdge.matcher, RadixParamEdge.next,
      ByteClassMatcher.Match, Function.update, emptyRadix, joinStr, sortStrings,
      List.insertionSort, List.orderedInsert, strLe]

/-- The compiled radix tree of claim C7's routes. -/
def rtC7 : RadixNode :=
  match compile routesC7 [] with
  | .ok rt => rt
  | .error _ => emptyRadix

/-- The leaf that `/users` matches in claim C7's tree. -/
def leafC7 : RadixNode :=
  match matchRoute rtC7 (bytes "/users") with
  | some r => r.1
  | none => emptyRadix

/-- C7 witness: the method-not-allowed theorem applied to the concrete
`GET`/`POST` router at `DELETE /users`. -/
theorem methodNotAllowed_allow_value_witness :
    serveHTTP true (some rtC7) mDELETE (bytes "/users") =
      .methodNotAllowed (joinStr (bytes ", ")
        (sortStrings (leafC7.handlers.map Prod.fst))) :=
  (methodNotAllowed_allow_value.1 rtC7 mDELETE (bytes "/users") leafC7 []
    (by decide) (by decide)
    (by simp +decide [rtC7, leafC7, compile, compileRoutes, compileMounts,
      compilePattern, compileSegList, parseSegment, parseSegmentLoop,
      parseParamBody, parseSegmentParam, validateParamName, cut, sub, bytes,
      splitPathSegments, splitOnSlash, Node.insertRoute, newNode, lookupA,
      updateA, mGET, mPOST, routesC7, buildRadix, buildRadixNode, buildRadixPE,
      buildRadixCE, buildRadixChildren, compressStaticChain,
      compressStaticChainLoop, insertRadixStaticEdge, insertRadixEdges,
      mergeRadixSubtree, mergeRadixEdges, longestCommonPrefix, finalizeRadix,
      finalizeEdges, finalizeRPE, sortEdges, insertEdgeSorted, strLt,
      buildEdgeIdx, matchRoute, matchPath, RadixNode.staticEdgeFor,
      nextSegmentAt, catchAllAt, matchParamSegment, storeParam,
      Node.staticChildren, Node.paramChild, Node.catchAllChild, Node.handlers,
      Node.mount, RadixNode.staticEdges, RadixNode.staticEdgeIndex,
      RadixNode.paramChild, RadixNode.catchAllChild, RadixNode.handlers,
      RadixNode.mount, Function.update, emptyRadix])
    (by simp +decide [rtC7, leafC7, compile, compileRoutes, compileMounts,
      compilePattern, compileSegList, parseSegment, parseSegmentLoop,
      parseParamBody, parseSegmentParam, validateParamName, cut, sub, bytes,
      splitPathSegments, splitOnSlash, Node.insertRoute, newNode, lookupA,
      updateA, mGET, mPOST, mDELETE, routesC7, buildRadix, buildRadixNode,
      buildRadixPE, buildRadixCE, buildRadixChildren, compressStaticChain,
      compressStaticChainLoop, insertRadixStaticEdge, insertRadixEdges,
      mergeRadixSubtree, mergeRadixEdges, longestCommonPrefix, finalizeRadix,
      finalizeEdges, finalizeRPE, sortEdges, insertEdgeSorted, strLt,
      buildEdgeIdx, matchRoute, matchPath, RadixNode.staticEdgeFor,
      nextSegmentAt, catchAllAt, matchParamSegment, storeParam,
      Node.staticChildren, Node.paramChild, Node.catchAllChild, Node.handlers,
      Node.mount, RadixNode.staticEdges, RadixNode.staticEdgeIndex,
      RadixNode.paramChild, RadixNode.catchAllChild, RadixNode.handlers,
      RadixNode.mount, Function.update, emptyRadix])
    (by simp +decide [rtC7, leafC7, compile, compileRoutes, compileMounts,
      compilePattern, compileSegList, parseSegment, parseSegmentLoop,
      parseParamBody, parseSegmentParam, validateParamName, cut, sub, bytes,
      splitPathSegments, splitOnSlash, Node.insertRoute, newNode, lookupA,
      updateA, mGET, mPOST, routesC7, buildRadix, buildRadixNode, buildRadixPE,
      buildRadixCE, buildRadixChildren, compressStaticChain,
      compressStaticChainLoop, insertRadixStaticEdge, insertRadixEdges,
      mergeRadixSubtree, mergeRadixEdges, longestCommonPrefix, finalizeRadix,
      finalizeEdges, finalizeRPE, sortEdges, insertEdgeSorted, strLt,
      buildEdgeIdx, matchRoute, matchPath, RadixNode.staticEdgeFor,
      nextSegmentAt, catchAllAt, matchParamSegment, storeParam,
      Node.staticChildren, Node.paramChild, Node.catchAllChild, Node.handlers,
      Node.mount, RadixNode.staticEdges, RadixNode.staticEdgeIndex,
      RadixNode.paramChild, RadixNode.catchAllChild, RadixNode.handlers,
      RadixNode.mount, Function.update, emptyRadix])).1

/-- C10.  On a compiled router, a request whose path is empty or does not
start with `'/'` resolves to not-found without consulting the route tree or
the mount table (the outcome is the same for every tree), and `ServeHTTP`
never panics once compiled; serving before a successful `Compile` is the only
panic. -/
theorem serve_path_guard :
    (∀ (rt : RadixNode) (method path : Str),
      path = [] ∨ path.headD 0 ≠ 47 →
      serveHTTP true (some rt) method path = .notFound) ∧
    (∀ (rt : RadixNode) (method path : Str),
      serveHTTP true (some rt) method path ≠ .panicked) ∧
    (∀ (root : Option RadixNode) (compiled : Bool) (method path : Str),
      ¬ compiled ∨ root = none → serveHTTP compiled root method path = .panicked) := by
  refine ⟨?_, ?_, ?_⟩
  · intro rt method path hbad
    rw [serveHTTP, if_neg (by simp), if_pos hbad]
  · intro rt method path
    rw [serveHTTP, if_neg (by simp)]
    split
    · simp
    · repeat' split
      all_goals simp
  · intro root compiled method path hbad
    rcases hbad with h | h
    · cases root with
      | none => rw [serveHTTP]
      | some rt => rw [serveHTTP, if_pos h]
    · subst h; rw [serveHTTP]

/-- C10 witness: the guard theorem applied to the empty tree, a concrete
non-slash path, an empty path, and the not-compiled state. -/
theorem serve_path_guard_witness :
    serveHTTP true (some emptyRadix) mGET (bytes "users") = .notFound ∧
    serveHTTP true (some emptyRadix) mGET [] = .notFound ∧
    serveHTTP true (some emptyRadix) mGET (bytes "users") ≠ .panicked ∧
    serveHTTP false (some emptyRadix) mGET (bytes "/users") = .panicked ∧
    serveHTTP true none mGET (bytes "/users") = .panicked :=
  ⟨serve_path_guard.1 emptyRadix mGET (bytes "users") (by decide),
   serve_path_guard.1 emptyRadix mGET [] (by decide),
   serve_path_guard.2.1 emptyRadix mGET (bytes "users"),
   serve_path_guard.2.2 (some emptyRadix) false mGET (bytes "/users") (by simp),
   serve_path_guard.2.2 none true mGET (bytes "/users") (by simp)⟩

/-- C9.  Trie insertion rejects conflicts: at a node that already has a
parameter edge, inserting a parameter segment passes that node iff the new
segment's name, constraint expression, prefix and suffix all equal the
existing edge's (otherwise a conflict error naming the existing parameter);
a catch-all against an existing catch-all is compared by name only; and
registering a method already present at the terminal node fails with a
duplicate-route error, the stored handler remaining in place. -/
theorem insertion_conflict_rules :
    (∀ (sc : List (Str × Node)) (c : Option ParamEdge) (hs : List (Str × Nat))
        (m : Option Nat) (pe : ParamEdge) (lit nm ex pr sf : Str)
        (mt : Option ByteClassMatcher) (tp : Option SegmentTemplate)
        (rest : List Segment) (method pattern : Str) (h : Nat),
      ((pe.name ≠ nm ∨ pe.expr ≠ ex ∨ pe.pre ≠ pr ∨ pe.suf ≠ sf) →
        (Node.mk sc (some pe) c hs m).insertRoute method pattern
          (Segment.mk .param lit nm ex pr sf mt tp :: rest) h =
          .error (.conflictParam method pattern pe.name)) ∧
      (pe.name = nm → pe.expr = ex → pe.pre = pr → pe.suf = sf →
        (Node.mk sc (some pe) c hs m).insertRoute method pattern
          (Segment.mk .param lit nm ex pr sf mt tp :: rest) h =
          (pe.next.insertRoute method pattern rest h).map
            (fun nx => Node.mk sc
              (some (.mk pe.name pe.expr pe.pre pe.suf pe.matcher nx)) c hs m))) ∧
    (∀ (sc : List (Str × Node)) (p : Option ParamEdge) (hs : List (Str × Nat))
        (m : Option Nat) (ce : ParamEdge) (lit nm ex pr sf : Str)
        (mt : Option ByteClassMatcher) (tp : Option SegmentTemplate)
        (rest : List Segment) (method pattern : Str) (h : Nat),
      ((ce.name ≠ nm) →
        (Node.mk sc p (some ce) hs m).insertRoute method pattern
          (Segment.mk .catchAll lit nm ex pr sf mt tp :: rest) h =
          .error (.conflictCatchAll method pattern ce.name)) ∧
      (ce.name = nm →
        (Node.mk sc p (some ce) hs m).insertRoute method pattern
          (Segment.mk .catchAll lit nm ex pr sf mt tp :: rest) h =
          (ce.next.insertRoute method pattern rest h).map
            (fun nx => Node.mk sc p
              (some (.mk ce.name ce.expr ce.pre ce.suf ce.matcher nx)) hs m))) ∧
    (∀ (sc : List (Str × Node)) (p c : Option ParamEdge) (hs : List (Str × Nat))
        (m : Option Nat) (method pattern : Str) (h h0 : Nat),
      lookupA hs method = some h0 →
      (Node.mk sc p c hs m).insertRoute method pattern [] h =
        .error (.dupRoute method pattern) ∧
      lookupA (Node.mk sc p c hs m).handlers method = some h0) := by
  refine ⟨?_, ?_, ?_⟩
  · intro sc c hs m pe lit nm ex pr sf mt tp rest method pattern h
    cases pe with
    | mk pnm pex ppr psf pmt pnx =>
      constructor
      · intro hdiff
        simp only [Node.insertRoute]
        rw [if_pos (by simpa [ParamEdge.name, ParamEdge.expr, ParamEdge.pre,
          ParamEdge.suf] using hdiff)]
        try simp [ParamEdge.name]
      · intro h1 h2 h3 h4
        simp only [ParamEdge.name, ParamEdge.expr, ParamEdge.pre,
          ParamEdge.suf] at h1 h2 h3 h4
        subst h1; subst h2; subst h3; subst h4
        simp only [Node.insertRoute]
        rw [if_neg (by simp [ParamEdge.name, ParamEdge.expr, ParamEdge.pre,
          ParamEdge.suf])]
        simp only [ParamEdge.name, ParamEdge.expr, ParamEdge.pre,
          ParamEdge.suf, ParamEdge.matcher, ParamEdge.next]
        cases hres : pnx.insertRoute method pattern rest h with
        | error e => simp [hres, Except.map]
        | ok nx' => simp [hres, Except.map]
  · intro sc p hs m ce lit nm ex pr sf mt tp rest method pattern h
    cases ce with
    | mk cnm cex cpr csf cmt cnx =>
      constructor
      · intro hdiff
        simp only [Node.insertRoute]
        rw [if_pos (by simpa [ParamEdge.name] using hdiff)]
        try simp [ParamEdge.name]
      · intro h1
        simp only [ParamEdge.name] at h1
        subst h1
        simp only [Node.insertRoute]
        rw [if_neg (by simp [ParamEdge.name])]
        simp only [ParamEdge.name, ParamEdge.expr, ParamEdge.pre,
          ParamEdge.suf, ParamEdge.matcher, ParamEdge.next]
        cases hres : cnx.insertRoute method pattern rest h with
        | error e => simp [hres, Except.map]
        | ok nx' => simp [hres, Except.map]
  · intro sc p c hs m method pattern h h0 hlk
    constructor
    · simp only [Node.insertRoute]
      rw [if_pos (by simp [hlk])]
    · simpa [Node.handlers] using hlk

/-- C9 witness: the conflict rules applied at concrete inputs — a `{name}`
parameter against an existing `{id}` edge, a `{rest...}` catch-all against an
existing `{path...}` edge, and a duplicate `GET` registration. -/
theorem insertion_conflict_rules_witness :
    (Node.mk [] (some (ParamEdge.mk (bytes "id") [] [] [] none newNode)) none
        [] none).insertRoute mGET (bytes "/users/{name}")
        [Segment.mk .param [] (bytes "name") [] [] [] none none] 7 =
      .error (.conflictParam mGET (bytes "/users/{name}") (bytes "id")) ∧
    (Node.mk [] none (some (ParamEdge.mk (bytes "path") [] [] [] none newNode))
        [] none).insertRoute mGET (bytes "/files/{rest...}")
        [Segment.mk .catchAll [] (bytes "rest") [] [] [] none none] 7 =
      .error (.conflictCatchAll mGET (bytes "/files/{rest...}") (bytes "path")) ∧
    (Node.mk [] none none [(mGET, 5)] none).insertRoute mGET (bytes "/users")
        [] 7 =
      .error (.dupRoute mGET (bytes "/users")) :=
  ⟨(insertion_conflict_rules.1 [] none [] none
      (ParamEdge.mk (bytes "id") [] [] [] none newNode) [] (bytes "name")
      [] [] [] none none [] mGET (bytes "/users/{name}") 7).1 (by decide),
   (insertion_conflict_rules.2.1 [] none [] none
      (ParamEdge.mk (bytes "path") [] [] [] none newNode) [] (bytes "rest")
      [] [] [] none none [] mGET (bytes "/files/{rest...}") 7).1 (by decide),
   (insertion_conflict_rules.2.2 [] none none [(mGET, 5)] none mGET
      (bytes "/users") 7 5 (by decide)).1⟩

end Saruta
